import Mathlib

/-!
# Cache_Sim.c : a 4-way set associative L1 data cache simulator with LRU replacement

Shallow embedding of `src/Cache_Sim.c`.

* The global array `l1cache[NO_OF_SETS][NO_OF_LINES]` is a function from a set number and a
  line number to a `cache_addr` record, wrapped in the structure `Cache`.  The program only
  ever indexes it with a set number produced by the address masks (below 1024) and a line
  number below 4.
* The bit fields of `struct cache_addr` are natural numbers / booleans; every store into a
  bit field is written with its explicit truncation (`% 4` for the 2-bit `lru`, `% 2^17`
  for the 17-bit `tag`).  The `data` payload is written once at start-up and never read,
  so it is not part of the record.
* The `uint_64` counters of `main` are natural numbers with explicit wrap-around `% 2^64`.
* One iteration of the `while` loop of `main` (lines 178-259) is `main_step`.  The textual
  trace parsing, the version, echo and dump switches and the printed report are
  input/output plumbing and are not modelled: an access is the first character of the
  operation token together with the `uint_32` value of the address token.
* `check_cache` and `set_lru` communicate through `hit_flag`, `empty_flag` and the returned
  line number; `CheckOut` carries them together with the cache, whose `valid` bit
  `check_cache` may have set.
-/

namespace CacheSim

/-! ## Constants (lines 47-65) -/

def NO_OF_SETS : Nat := 1024
def NO_OF_LINES : Nat := 4
def SIZE_OF_LINE : Nat := 32

def OFFSET_MSK : Nat := 0x0000001F
def INDEX_MSK : Nat := 0x00007FE0
def TAG_MSK : Nat := 0xFFFF8000
def OFFSET_VAL : Nat := 0
def INDEX_VAL : Nat := 5
def TAG_VAL : Nat := 15

/-! ## Data model (lines 76-86) -/

/-- One cache line: `struct cache_addr` without its unused `data` payload. -/
structure cache_addr where
  tag : Nat
  lru : Nat
  valid : Bool
  dirty : Bool
deriving DecidableEq, Repr

/-- The global array: `c.line i j` is `l1cache[i][j]`. -/
structure Cache where
  line : Nat → Nat → cache_addr

/-- Store of a whole record into `l1cache[index][n]`. -/
def setLine (c : Cache) (index n : Nat) (l : cache_addr) : Cache :=
  ⟨fun i j => if i = index ∧ j = n then l else c.line i j⟩

/-! ## Address decoding (lines 181-184) -/

def temp_tag (mem_addr : Nat) : Nat := (mem_addr &&& TAG_MSK) >>> TAG_VAL
def temp_index (mem_addr : Nat) : Nat := (mem_addr &&& INDEX_MSK) >>> INDEX_VAL
def temp_offset (mem_addr : Nat) : Nat := mem_addr &&& OFFSET_MSK

/-! ## check_cache (lines 302-335) -/

/-- What `check_cache` hands back: the returned line number, the two flags written through
the pointers, and the cache (whose `valid` bit of the chosen empty line has been set). -/
structure CheckOut where
  line_num : Nat
  hit_flag : Bool
  empty_flag : Bool
  l1cache : Cache

/-- The `for` loop of `check_cache`: the first argument counts the iterations still to run
(`NO_OF_LINES - temp_li`), then come `temp_li`, the current `line_num` and the cache. -/
def check_cache_loop (tag index : Nat) : Nat → Nat → Nat → Cache → CheckOut
  | 0, _, line_num, c => ⟨line_num, false, false, c⟩
  | n + 1, temp_li, line_num, c =>
    if (c.line index temp_li).valid = true then
      if (c.line index temp_li).tag = tag then
        ⟨temp_li, true, false, c⟩
      else if (c.line index temp_li).lru = 3 then
        check_cache_loop tag index n (temp_li + 1) temp_li c
      else
        check_cache_loop tag index n (temp_li + 1) line_num c
    else
      ⟨temp_li, false, true, setLine c index temp_li { c.line index temp_li with valid := true }⟩

def check_cache (c : Cache) (tag index : Nat) : CheckOut :=
  check_cache_loop tag index NO_OF_LINES 0 0 c

/-! ## set_lru (lines 349-381) -/

/-- The statement `l1cache[index][temp_li].lru ++` on the 2-bit field. -/
def lru_inc (c : Cache) (index temp_li : Nat) : Cache :=
  setLine c index temp_li { c.line index temp_li with lru := ((c.line index temp_li).lru + 1) % 4 }

/-- The loop of the hit branch (lines 354-360); first argument: iterations still to run. -/
def set_lru_hit_loop (index line_num : Nat) : Nat → Nat → Cache → Cache
  | 0, _, c => c
  | n + 1, temp_li, c =>
    set_lru_hit_loop index line_num n (temp_li + 1)
      (if (c.line index temp_li).lru < (c.line index line_num).lru then lru_inc c index temp_li else c)

/-- The unconditional increment loops (lines 367-370 with bound `line_num`, lines 375-378
with bound `NO_OF_LINES`); first argument: iterations still to run. -/
def set_lru_inc_loop (index : Nat) : Nat → Nat → Cache → Cache
  | 0, _, c => c
  | n + 1, temp_li, c => set_lru_inc_loop index n (temp_li + 1) (lru_inc c index temp_li)

def set_lru (c : Cache) (line_num index : Nat) (hit_flag empty_flag : Bool) : Cache :=
  if hit_flag = true then
    let c1 := set_lru_hit_loop index line_num NO_OF_LINES 0 c
    setLine c1 index line_num { c1.line index line_num with lru := 0 }
  else if empty_flag = true then
    let c1 := set_lru_inc_loop index line_num 0 c
    setLine c1 index line_num { c1.line index line_num with lru := 0 }
  else
    set_lru_inc_loop index NO_OF_LINES 0 c

/-! ## main (lines 99-288) -/

/-- The variables of `main` that survive one iteration of the trace loop. -/
structure State where
  l1cache : Cache
  clock_cycles : Nat
  read_hits : Nat
  write_hits : Nat
  read_misses : Nat
  write_misses : Nat
  reads : Nat
  writes : Nat
  accesses : Nat
  hits : Nat
  misses : Nat
  write_backs : Nat

/-- One trace record: `arg[0]` and the `uint_32` value `mem_addr`. -/
structure Access where
  arg0 : Char
  mem_addr : Nat
deriving DecidableEq, Repr

/-- Addition on `uint_64`. -/
def add64 (x k : Nat) : Nat := (x + k) % 2 ^ 64

/-- Lines 117-136: counters zero, every line zero and invalid (the `dirty` bit is zero
because `l1cache` has static storage). -/
def init : State :=
  { l1cache := ⟨fun _ _ => { tag := 0, lru := 0, valid := false, dirty := false }⟩
    clock_cycles := 0, read_hits := 0, write_hits := 0, read_misses := 0, write_misses := 0
    reads := 0, writes := 0, accesses := 0, hits := 0, misses := 0, write_backs := 0 }

/-- Lines 189-212: the cache-hit branch. -/
def main_hit (s : State) (arg0 : Char) (index line_num : Nat) : State :=
  let s := { s with hits := add64 s.hits 1 }
  if arg0 = 'r' ∨ arg0 = 'R' then
    { s with read_hits := add64 s.read_hits 1, reads := add64 s.reads 1 }
  else if arg0 = 'w' ∨ arg0 = 'W' then
    { s with
      write_hits := add64 s.write_hits 1
      writes := add64 s.writes 1
      l1cache := setLine s.l1cache index line_num { s.l1cache.line index line_num with dirty := true } }
  else s

/-- Lines 216-255: the cache-miss branch. -/
def main_miss (s : State) (arg0 : Char) (tag index line_num : Nat) : State :=
  let s := { s with misses := add64 s.misses 1 }
  let s :=
    if arg0 = 'r' ∨ arg0 = 'R' then
      { s with read_misses := add64 s.read_misses 1, reads := add64 s.reads 1 }
    else if arg0 = 'w' ∨ arg0 = 'W' then
      { s with write_misses := add64 s.write_misses 1, writes := add64 s.writes 1 }
    else s
  let s :=
    if (s.l1cache.line index line_num).dirty = true then
      { s with
        write_backs := add64 s.write_backs 1
        clock_cycles := add64 s.clock_cycles 50
        l1cache := setLine s.l1cache index line_num
          { s.l1cache.line index line_num with dirty := false } }
    else s
  { s with
    clock_cycles := add64 s.clock_cycles 50
    l1cache := setLine s.l1cache index line_num
      { s.l1cache.line index line_num with tag := tag % 2 ^ 17 } }

/-- Lines 178-259: one access. -/
def main_step (s : State) (a : Access) : State :=
  let s := { s with accesses := add64 s.accesses 1 }
  let r := check_cache s.l1cache (temp_tag a.mem_addr) (temp_index a.mem_addr)
  let s := { s with l1cache := r.l1cache, clock_cycles := add64 s.clock_cycles 1 }
  let s :=
    if r.hit_flag = true then main_hit s a.arg0 (temp_index a.mem_addr) r.line_num
    else main_miss s a.arg0 (temp_tag a.mem_addr) (temp_index a.mem_addr) r.line_num
  { s with
    l1cache := set_lru s.l1cache r.line_num (temp_index a.mem_addr) r.hit_flag r.empty_flag }

/-- The trace loop: the accesses of the list, first to last. -/
def run (s : State) (tr : List Access) : State := tr.foldl main_step s

/-- The result of `check_cache` for access `a` in state `s` (line 185). -/
def lookup (s : State) (a : Access) : CheckOut :=
  check_cache s.l1cache (temp_tag a.mem_addr) (temp_index a.mem_addr)

/-! ## Specification vocabulary -/

/-- Lines `lo .. hi-1` of set `index` are all valid and none holds `tag`. -/
def AllMismatch (c : Cache) (tag index lo hi : Nat) : Prop :=
  ∀ j, lo ≤ j → j < hi → (c.line index j).valid = true ∧ (c.line index j).tag ≠ tag

/-- Outcome "hit" of `check_cache c tag index`. -/
def IsHit (c : Cache) (tag index : Nat) (r : CheckOut) : Prop :=
  r.hit_flag = true ∧ r.empty_flag = false ∧ r.l1cache = c ∧ r.line_num < 4
    ∧ (c.line index r.line_num).valid = true ∧ (c.line index r.line_num).tag = tag
    ∧ AllMismatch c tag index 0 r.line_num

/-- Outcome "miss into an empty line" of `check_cache c tag index`. -/
def IsFill (c : Cache) (tag index : Nat) (r : CheckOut) : Prop :=
  r.hit_flag = false ∧ r.empty_flag = true
    ∧ r.l1cache = setLine c index r.line_num { c.line index r.line_num with valid := true }
    ∧ r.line_num < 4 ∧ (c.line index r.line_num).valid = false
    ∧ AllMismatch c tag index 0 r.line_num

/-- Outcome "miss in a set without an empty line" of `check_cache c tag index`. -/
def IsEvict (c : Cache) (tag index : Nat) (r : CheckOut) : Prop :=
  r.hit_flag = false ∧ r.empty_flag = false ∧ r.l1cache = c ∧ r.line_num < 4
    ∧ AllMismatch c tag index 0 4
    ∧ ((r.line_num = 0 ∧ ∀ j, j < 4 → (c.line index j).lru ≠ 3)
       ∨ ((c.line index r.line_num).lru = 3
          ∧ ∀ j, r.line_num < j → j < 4 → (c.line index j).lru ≠ 3))

/-- Number of valid lines of set `i`. -/
def validCount (c : Cache) (i : Nat) : Nat :=
  ((List.range NO_OF_LINES).filter (fun j => (c.line i j).valid)).length

/-- Filling discipline and rank permutation of set `i`: the valid lines are lines `0..k-1`
and their `lru` fields are pairwise distinct values below `k`. -/
def SetInv (c : Cache) (i : Nat) : Prop :=
  ∃ k, k ≤ 4
    ∧ (∀ j, j < 4 → ((c.line i j).valid = true ↔ j < k))
    ∧ (∀ j, j < k → (c.line i j).lru < k)
    ∧ (∀ a b, a < k → b < k → (c.line i a).lru = (c.line i b).lru → a = b)

/-! ## Access history -/

/-- The (set, line) pair selected by each access of a trace run from state `s`: the set is
`temp_index`, the line is the value returned by `check_cache` (line 185). -/
def selections : State → List Access → List (Nat × Nat)
  | _, [] => []
  | s, a :: tr => (temp_index a.mem_addr, (lookup s a).line_num) :: selections (main_step s a) tr

/-- Position of the last occurrence of `x` in a list, if there is one. -/
def last_pos (x : Nat × Nat) : List (Nat × Nat) → Option Nat
  | [] => none
  | y :: l =>
    match last_pos x l with
    | some p => some (p + 1)
    | none => if y = x then some 0 else none

/-- Position in the trace (from 0) of the most recent access that selected line `n` of set
`i`, when the trace is replayed from the initial state; `none` if no access selected it. -/
def last_access (tr : List Access) (i n : Nat) : Option Nat :=
  last_pos (i, n) (selections init tr)

/-- Ranks of set `i` agree with the access history of trace `tr`: every valid line has been
selected by some access, and of two valid lines the one selected later has the smaller
`lru`. -/
def RecencyInv (tr : List Access) (i : Nat) : Prop :=
  (∀ j, j < 4 → ((run init tr).l1cache.line i j).valid = true →
      ∃ p, last_access tr i j = some p ∧ p < tr.length)
  ∧ (∀ x y px py, x < 4 → y < 4 → x ≠ y →
      ((run init tr).l1cache.line i x).valid = true →
      ((run init tr).l1cache.line i y).valid = true →
      last_access tr i x = some px → last_access tr i y = some py →
      (((run init tr).l1cache.line i x).lru < ((run init tr).l1cache.line i y).lru ↔ py < px))

/-- Lines `0..m-1` of set `i` are valid, line `j` holding tag `ts j` with `lru = m-1-j`,
and lines `m..3` are invalid. -/
def Filled (c : Cache) (i m : Nat) (ts : Nat → Nat) : Prop :=
  (∀ j, j < m → (c.line i j).valid = true ∧ (c.line i j).tag = ts j
      ∧ (c.line i j).lru = m - 1 - j)
  ∧ (∀ j, m ≤ j → j < 4 → (c.line i j).valid = false)

/-- The operation token of the access starts with one of the four letters that `main`
recognises. -/
def isReadWrite (a : Access) : Prop :=
  (a.arg0 = 'r' ∨ a.arg0 = 'R') ∨ (a.arg0 = 'w' ∨ a.arg0 = 'W')

instance (a : Access) : Decidable (isReadWrite a) := by
  unfold isReadWrite
  infer_instance

/-- The counter identities of the statistics, in `uint_64` arithmetic, together with their
exact form as long as fewer than `2^64` accesses (`n` of them) have been counted. -/
def StatsInv (s : State) (n : Nat) : Prop :=
  ((s.hits + s.misses) % 2 ^ 64 = s.accesses
    ∧ (s.read_hits + s.read_misses) % 2 ^ 64 = s.reads
    ∧ (s.write_hits + s.write_misses) % 2 ^ 64 = s.writes
    ∧ (s.reads + s.writes) % 2 ^ 64 = s.accesses)
  ∧ (n < 2 ^ 64 →
      s.accesses = n
        ∧ s.hits + s.misses = s.accesses
        ∧ s.read_hits + s.read_misses = s.reads
        ∧ s.write_hits + s.write_misses = s.writes
        ∧ s.accesses = s.reads + s.writes)

/-- A sample trace on set 0: four write misses fill the set with tags 0..3, a write hit
dirties line 0, then three read misses evict lines 1, 2, 3. -/
def sample_trace : List Access :=
  [⟨'w', 0x0⟩, ⟨'w', 0x8000⟩, ⟨'w', 0x10000⟩, ⟨'w', 0x18000⟩, ⟨'W', 0x4⟩,
   ⟨'r', 0x20000⟩, ⟨'r', 0x28000⟩, ⟨'r', 0x30000⟩]

/-- No two distinct valid lines of set `i` hold the same tag. -/
def NoDupTags (c : Cache) (i : Nat) : Prop :=
  ∀ x y, x < 4 → y < 4 → (c.line i x).valid = true → (c.line i y).valid = true →
    (c.line i x).tag = (c.line i y).tag → x = y

/-- The rank update of the spec for a miss with eviction (spec section 4.4): "increment the
rank of every line in the set by 1 (mod W), then explicitly set the selected
(evicted-and-refilled) line's rank to 0".  Written from the words of the spec, to be
compared with the branch of `set_lru` for `hit_flag = false`, `empty_flag = false`. -/
def spec_evict_recency (c : Cache) (selected_line index : Nat) : Cache :=
  ⟨fun i j =>
    if i = index ∧ j < NO_OF_LINES then
      { c.line i j with
        lru := if j = selected_line then 0 else ((c.line i j).lru + 1) % NO_OF_LINES }
    else c.line i j⟩

/-- Every invalid line is clean. -/
def InvalidClean (c : Cache) : Prop :=
  ∀ i j, (c.line i j).valid = false → (c.line i j).dirty = false

/-- The cycle account in `uint_64` arithmetic, and, while `101 * n` stays below `2^64`
(`n` accesses cannot have made any counter wrap), the exact account together with the bound
of the write-backs by the misses. -/
def AccountInv (s : State) (n : Nat) : Prop :=
  s.clock_cycles = (s.accesses + 50 * s.misses + 50 * s.write_backs) % 2 ^ 64
  ∧ (101 * n < 2 ^ 64 →
      s.accesses = n ∧ s.misses ≤ n ∧ s.write_backs ≤ s.misses
        ∧ s.clock_cycles = s.accesses + 50 * s.misses + 50 * s.write_backs)

/-- Number of lines of the whole cache (`NO_OF_SETS` sets of `NO_OF_LINES` lines) whose
`dirty` bit is set. -/
def dirtyCount (c : Cache) : Nat :=
  ∑ i ∈ Finset.range NO_OF_SETS, ∑ j ∈ Finset.range NO_OF_LINES,
    if (c.line i j).dirty = true then 1 else 0

/-- The block with tag `t` is resident in set `i`, and every valid line of the set that is
more recently used than the line holding it holds one of the tags `t1`, `t2`, `t3`. -/
def Protected (c : Cache) (i t t1 t2 t3 : Nat) : Prop :=
  ∃ h, h < 4 ∧ (c.line i h).valid = true ∧ (c.line i h).tag = t
    ∧ ∀ j, j < 4 → (c.line i j).valid = true → (c.line i j).lru < (c.line i h).lru →
        (c.line i j).tag = t1 ∨ (c.line i j).tag = t2 ∨ (c.line i j).tag = t3

/-- The distinct tags other than `t` of the accesses of `mid` that go to set `i`. -/
def other_tags (mid : List Access) (i t : Nat) : List Nat :=
  ((mid.filter (fun x => decide (temp_index x.mem_addr = i ∧ temp_tag x.mem_addr ≠ t))).map
    (fun x => temp_tag x.mem_addr)).dedup

/-! # Theorems -/

/-! ## Basic facts about stores -/

@[simp] theorem setLine_line (c : Cache) (index n : Nat) (l : cache_addr) (i j : Nat) :
    (setLine c index n l).line i j = if i = index ∧ j = n then l else c.line i j := rfl

theorem Cache.ext_line {c d : Cache} (h : ∀ i j, c.line i j = d.line i j) : c = d := by
  cases c; cases d
  congr
  funext i j
  exact h i j

/-! ## The scan of check_cache -/

/-- The three ways the scan over lines `lo .. lo+n-1` can end. -/
theorem check_cache_loop_cases (tag index : Nat) :
    ∀ (n lo line_num : Nat) (c : Cache),
      (((check_cache_loop tag index n lo line_num c).hit_flag = true
          ∧ (check_cache_loop tag index n lo line_num c).empty_flag = false
          ∧ (check_cache_loop tag index n lo line_num c).l1cache = c
          ∧ lo ≤ (check_cache_loop tag index n lo line_num c).line_num
          ∧ (check_cache_loop tag index n lo line_num c).line_num < lo + n
          ∧ (c.line index (check_cache_loop tag index n lo line_num c).line_num).valid = true
          ∧ (c.line index (check_cache_loop tag index n lo line_num c).line_num).tag = tag
          ∧ AllMismatch c tag index lo (check_cache_loop tag index n lo line_num c).line_num)
       ∨ ((check_cache_loop tag index n lo line_num c).hit_flag = false
          ∧ (check_cache_loop tag index n lo line_num c).empty_flag = true
          ∧ (check_cache_loop tag index n lo line_num c).l1cache
              = setLine c index (check_cache_loop tag index n lo line_num c).line_num
                  { c.line index (check_cache_loop tag index n lo line_num c).line_num with
                    valid := true }
          ∧ lo ≤ (check_cache_loop tag index n lo line_num c).line_num
          ∧ (check_cache_loop tag index n lo line_num c).line_num < lo + n
          ∧ (c.line index (check_cache_loop tag index n lo line_num c).line_num).valid = false
          ∧ AllMismatch c tag index lo (check_cache_loop tag index n lo line_num c).line_num)
       ∨ ((check_cache_loop tag index n lo line_num c).hit_flag = false
          ∧ (check_cache_loop tag index n lo line_num c).empty_flag = false
          ∧ (check_cache_loop tag index n lo line_num c).l1cache = c
          ∧ AllMismatch c tag index lo (lo + n)
          ∧ (((check_cache_loop tag index n lo line_num c).line_num = line_num
                ∧ ∀ j, lo ≤ j → j < lo + n → (c.line index j).lru ≠ 3)
             ∨ (lo ≤ (check_cache_loop tag index n lo line_num c).line_num
                ∧ (check_cache_loop tag index n lo line_num c).line_num < lo + n
                ∧ (c.line index (check_cache_loop tag index n lo line_num c).line_num).lru = 3
                ∧ ∀ j, (check_cache_loop tag index n lo line_num c).line_num < j → j < lo + n →
                    (c.line index j).lru ≠ 3)))) := by
  intro n
  induction n with
  | zero =>
    intro lo line_num c
    right; right
    refine ⟨rfl, rfl, rfl, ?_, Or.inl ⟨rfl, ?_⟩⟩
    · intro j h1 h2; omega
    · intro j h1 h2; omega
  | succ n ih =>
    intro lo line_num c
    unfold check_cache_loop
    by_cases hv : (c.line index lo).valid = true
    · by_cases ht : (c.line index lo).tag = tag
      · left
        rw [if_pos hv, if_pos ht]
        refine ⟨rfl, rfl, rfl, le_refl _, ?_, hv, ht, ?_⟩
        · show lo < lo + (n + 1)
          omega
        · intro j h1 h2
          have h3 : j < lo := h2
          omega
      · have hfirst : ∀ j, lo ≤ j → j < lo + 1 →
            (c.line index j).valid = true ∧ (c.line index j).tag ≠ tag := by
          intro j h1 h2
          have : j = lo := by omega
          subst this
          exact ⟨hv, ht⟩
        have hext : ∀ hi, AllMismatch c tag index (lo + 1) hi → AllMismatch c tag index lo hi := by
          intro hi h j h1 h2
          by_cases hj : j = lo
          · subst hj; exact ⟨hv, ht⟩
          · exact h j (by omega) h2
        by_cases h3 : (c.line index lo).lru = 3
        · rw [if_pos hv, if_neg ht, if_pos h3]
          rcases ih (lo + 1) lo c with h | h | h
          · left
            obtain ⟨a1, a2, a3, a4, a5, a6, a7, a8⟩ := h
            exact ⟨a1, a2, a3, by omega, by omega, a6, a7, hext _ a8⟩
          · right; left
            obtain ⟨a1, a2, a3, a4, a5, a6, a7⟩ := h
            exact ⟨a1, a2, a3, by omega, by omega, a6, hext _ a7⟩
          · right; right
            obtain ⟨a1, a2, a3, a4, a5⟩ := h
            refine ⟨a1, a2, a3, hext _ (by simpa [Nat.add_assoc, Nat.add_comm 1 n] using a4), ?_⟩
            right
            rcases a5 with ⟨b1, b2⟩ | ⟨b1, b2, b3, b4⟩
            · rw [b1]
              refine ⟨le_refl _, by omega, h3, ?_⟩
              intro j h1 h2
              exact b2 j (by omega) (by omega)
            · refine ⟨by omega, by omega, b3, ?_⟩
              intro j h1 h2
              exact b4 j h1 (by omega)
        · rw [if_pos hv, if_neg ht, if_neg h3]
          rcases ih (lo + 1) line_num c with h | h | h
          · left
            obtain ⟨a1, a2, a3, a4, a5, a6, a7, a8⟩ := h
            exact ⟨a1, a2, a3, by omega, by omega, a6, a7, hext _ a8⟩
          · right; left
            obtain ⟨a1, a2, a3, a4, a5, a6, a7⟩ := h
            exact ⟨a1, a2, a3, by omega, by omega, a6, hext _ a7⟩
          · right; right
            obtain ⟨a1, a2, a3, a4, a5⟩ := h
            refine ⟨a1, a2, a3, hext _ (by simpa [Nat.add_assoc, Nat.add_comm 1 n] using a4), ?_⟩
            rcases a5 with ⟨b1, b2⟩ | ⟨b1, b2, b3, b4⟩
            · left
              refine ⟨b1, ?_⟩
              intro j h1 h2
              by_cases hj : j = lo
              · subst hj; exact h3
              · exact b2 j (by omega) (by omega)
            · right
              refine ⟨by omega, by omega, b3, ?_⟩
              intro j h1 h2
              exact b4 j h1 (by omega)
    · right; left
      have hv' : (c.line index lo).valid = false := by simpa using hv
      rw [if_neg hv]
      refine ⟨rfl, rfl, rfl, le_refl _, ?_, hv', ?_⟩
      · show lo < lo + (n + 1)
        omega
      · intro j h1 h2
        have h3 : j < lo := h2
        omega

theorem check_cache_cases (c : Cache) (tag index : Nat) :
    IsHit c tag index (check_cache c tag index)
      ∨ IsFill c tag index (check_cache c tag index)
      ∨ IsEvict c tag index (check_cache c tag index) := by
  unfold check_cache NO_OF_LINES
  rcases check_cache_loop_cases tag index 4 0 0 c with h | h | h
  · left
    obtain ⟨a1, a2, a3, a4, a5, a6, a7, a8⟩ := h
    exact ⟨a1, a2, a3, by omega, a6, a7, a8⟩
  · right; left
    obtain ⟨a1, a2, a3, a4, a5, a6, a7⟩ := h
    exact ⟨a1, a2, a3, by omega, a6, a7⟩
  · right; right
    obtain ⟨a1, a2, a3, a4, a5⟩ := h
    refine ⟨a1, a2, a3, ?_, by simpa using a4, ?_⟩
    · rcases a5 with ⟨b1, _⟩ | ⟨_, b2, _, _⟩
      · omega
      · omega
    · rcases a5 with ⟨b1, b2⟩ | ⟨_, _, b3, b4⟩
      · left
        exact ⟨b1, fun j hj => b2 j (Nat.zero_le _) (by omega)⟩
      · right
        exact ⟨b3, fun j h1 h2 => b4 j h1 (by omega)⟩

/-! ## The loops of set_lru -/

theorem lru_inc_line (c : Cache) (index n i j : Nat) :
    (lru_inc c index n).line i j
      = if i = index ∧ j = n then
          { c.line i j with lru := ((c.line i j).lru + 1) % 4 }
        else c.line i j := by
  unfold lru_inc
  rw [setLine_line]
  by_cases h : i = index ∧ j = n
  · rw [if_pos h, if_pos h, h.1, h.2]
  · rw [if_neg h, if_neg h]

theorem set_lru_inc_loop_line (index : Nat) :
    ∀ (n lo : Nat) (c : Cache) (i j : Nat),
      (set_lru_inc_loop index n lo c).line i j
        = if i = index ∧ lo ≤ j ∧ j < lo + n then
            { c.line i j with lru := ((c.line i j).lru + 1) % 4 }
          else c.line i j := by
  intro n
  induction n with
  | zero =>
    intro lo c i j
    have : ¬ (i = index ∧ lo ≤ j ∧ j < lo + 0) := by omega
    rw [if_neg this]
    rfl
  | succ n ih =>
    intro lo c i j
    unfold set_lru_inc_loop
    rw [ih, lru_inc_line]
    by_cases hi : i = index
    · by_cases hj : j = lo
      · have h1 : ¬ (i = index ∧ lo + 1 ≤ j ∧ j < lo + 1 + n) := by omega
        have h2 : i = index ∧ j = lo := ⟨hi, hj⟩
        have h3 : i = index ∧ lo ≤ j ∧ j < lo + (n + 1) := by omega
        rw [if_neg h1, if_pos h2, if_pos h3]
      · have h2 : ¬ (i = index ∧ j = lo) := by omega
        by_cases h1 : i = index ∧ lo + 1 ≤ j ∧ j < lo + 1 + n
        · have h3 : i = index ∧ lo ≤ j ∧ j < lo + (n + 1) := by omega
          rw [if_pos h1, if_neg h2, if_pos h3]
        · have h3 : ¬ (i = index ∧ lo ≤ j ∧ j < lo + (n + 1)) := by omega
          rw [if_neg h1, if_neg h2, if_neg h3]
    · have h1 : ¬ (i = index ∧ lo + 1 ≤ j ∧ j < lo + 1 + n) := by omega
      have h2 : ¬ (i = index ∧ j = lo) := by omega
      have h3 : ¬ (i = index ∧ lo ≤ j ∧ j < lo + (n + 1)) := by omega
      rw [if_neg h1, if_neg h2, if_neg h3]

theorem set_lru_hit_loop_line (index line_num : Nat) :
    ∀ (n lo : Nat) (c : Cache) (i j : Nat),
      (set_lru_hit_loop index line_num n lo c).line i j
        = if i = index ∧ lo ≤ j ∧ j < lo + n
              ∧ (c.line index j).lru < (c.line index line_num).lru then
            { c.line i j with lru := ((c.line i j).lru + 1) % 4 }
          else c.line i j := by
  intro n
  induction n with
  | zero =>
    intro lo c i j
    have : ¬ (i = index ∧ lo ≤ j ∧ j < lo + 0
        ∧ (c.line index j).lru < (c.line index line_num).lru) := by omega
    rw [if_neg this]
    rfl
  | succ n ih =>
    intro lo c i j
    unfold set_lru_hit_loop
    rw [ih]
    by_cases hc : (c.line index lo).lru < (c.line index line_num).lru
    · rw [if_pos hc]
      have hne : line_num ≠ lo := by
        intro h; subst h; omega
      have hln : (lru_inc c index lo).line index line_num = c.line index line_num := by
        rw [lru_inc_line, if_neg (by omega)]
      rw [hln, lru_inc_line, lru_inc_line]
      by_cases hi : i = index
      · by_cases hj : j = lo
        · subst hi; subst hj
          have h1 : ¬ (i = i ∧ j + 1 ≤ j ∧ j < j + 1 + n ∧
              (if i = i ∧ j = j then
                ({ c.line i j with lru := ((c.line i j).lru + 1) % 4 } : cache_addr)
               else c.line i j).lru < (c.line i line_num).lru) := by omega
          have h3 : i = i ∧ j ≤ j ∧ j < j + (n + 1)
              ∧ (c.line i j).lru < (c.line i line_num).lru := ⟨rfl, le_refl _, by omega, hc⟩
          rw [if_neg h1, if_pos ⟨rfl, rfl⟩, if_pos h3]
        · have h2 : ¬ (i = index ∧ j = lo) := by omega
          have h2' : ¬ (index = index ∧ j = lo) := by omega
          rw [if_neg h2, if_neg h2']
          by_cases h1 : i = index ∧ lo + 1 ≤ j ∧ j < lo + 1 + n
              ∧ (c.line index j).lru < (c.line index line_num).lru
          · have h3 : i = index ∧ lo ≤ j ∧ j < lo + (n + 1)
                ∧ (c.line index j).lru < (c.line index line_num).lru := by omega
            rw [if_pos h1, if_pos h3]
          · have h3 : ¬ (i = index ∧ lo ≤ j ∧ j < lo + (n + 1)
                ∧ (c.line index j).lru < (c.line index line_num).lru) := by omega
            rw [if_neg h1, if_neg h3]
      · have h2 : ¬ (i = index ∧ j = lo) := by omega
        rw [if_neg (by omega), if_neg h2, if_neg (by omega)]
    · rw [if_neg hc]
      by_cases h1 : i = index ∧ lo + 1 ≤ j ∧ j < lo + 1 + n
          ∧ (c.line index j).lru < (c.line index line_num).lru
      · have h3 : i = index ∧ lo ≤ j ∧ j < lo + (n + 1)
            ∧ (c.line index j).lru < (c.line index line_num).lru := by omega
        rw [if_pos h1, if_pos h3]
      · have h3 : ¬ (i = index ∧ lo ≤ j ∧ j < lo + (n + 1)
            ∧ (c.line index j).lru < (c.line index line_num).lru) := by
          intro h
          apply h1
          refine ⟨h.1, ?_, by omega, h.2.2.2⟩
          by_contra hlo
          have : j = lo := by omega
          subst this
          exact hc h.2.2.2
        rw [if_neg h1, if_neg h3]

theorem write_not_read (ch : Char) (h : ch = 'w' ∨ ch = 'W') : ¬ (ch = 'r' ∨ ch = 'R') := by
  rcases h with h | h <;> subst h <;> decide

/-- The cache after one access, as a function of the cache before and the lookup result. -/
theorem main_step_l1cache (s : State) (a : Access) :
    (main_step s a).l1cache
      = set_lru
          (if (lookup s a).hit_flag = true then
            (if a.arg0 = 'w' ∨ a.arg0 = 'W' then
              setLine (lookup s a).l1cache (temp_index a.mem_addr) (lookup s a).line_num
                { (lookup s a).l1cache.line (temp_index a.mem_addr) (lookup s a).line_num with
                  dirty := true }
             else (lookup s a).l1cache)
           else
            setLine (lookup s a).l1cache (temp_index a.mem_addr) (lookup s a).line_num
              { tag := temp_tag a.mem_addr % 2 ^ 17
                lru := ((lookup s a).l1cache.line (temp_index a.mem_addr)
                          (lookup s a).line_num).lru
                valid := ((lookup s a).l1cache.line (temp_index a.mem_addr)
                          (lookup s a).line_num).valid
                dirty := false })
          (lookup s a).line_num (temp_index a.mem_addr) (lookup s a).hit_flag
          (lookup s a).empty_flag := by
  unfold main_step lookup
  by_cases hh : (check_cache s.l1cache (temp_tag a.mem_addr) (temp_index a.mem_addr)).hit_flag = true
  · simp only [hh, if_true]
    unfold main_hit
    by_cases hr : a.arg0 = 'r' ∨ a.arg0 = 'R'
    · have hw : ¬ (a.arg0 = 'w' ∨ a.arg0 = 'W') := fun h => write_not_read _ h hr
      simp only [if_pos hr, if_neg hw]
    · by_cases hw : a.arg0 = 'w' ∨ a.arg0 = 'W'
      · simp only [if_neg hr, if_pos hw]
      · simp only [if_neg hr, if_neg hw]
  · simp only [hh, Bool.false_eq_true, if_false]
    unfold main_miss
    congr 1
    apply Cache.ext_line
    intro i j
    by_cases hr : a.arg0 = 'r' ∨ a.arg0 = 'R'
    · simp only [if_pos hr]
      split <;> simp_all
    · by_cases hw : a.arg0 = 'w' ∨ a.arg0 = 'W'
      · simp only [if_neg hr, if_pos hw]
        split <;> simp_all
      · simp only [if_neg hr, if_neg hw]
        split <;> simp_all

theorem set_lru_line_hit (c : Cache) (n index : Nat) (e : Bool) (i j : Nat) :
    (set_lru c n index true e).line i j
      = if i = index ∧ j = n then { c.line index n with lru := 0 }
        else if i = index ∧ j < 4 ∧ (c.line index j).lru < (c.line index n).lru then
          { c.line i j with lru := ((c.line i j).lru + 1) % 4 }
        else c.line i j := by
  unfold set_lru NO_OF_LINES
  simp only [if_true, setLine_line, set_lru_hit_loop_line]
  by_cases h1 : i = index ∧ j = n
  · obtain ⟨rfl, rfl⟩ := h1
    simp
  · rw [if_neg h1, if_neg h1]
    simp

theorem set_lru_line_fill (c : Cache) (n index : Nat) (i j : Nat) :
    (set_lru c n index false true).line i j
      = if i = index ∧ j = n then { c.line index n with lru := 0 }
        else if i = index ∧ j < n then
          { c.line i j with lru := ((c.line i j).lru + 1) % 4 }
        else c.line i j := by
  unfold set_lru
  simp only [Bool.false_eq_true, if_false, if_true, setLine_line, set_lru_inc_loop_line]
  by_cases h1 : i = index ∧ j = n
  · obtain ⟨rfl, rfl⟩ := h1
    simp
  · rw [if_neg h1, if_neg h1]
    simp

theorem set_lru_line_evict (c : Cache) (n index : Nat) (i j : Nat) :
    (set_lru c n index false false).line i j
      = if i = index ∧ j < 4 then
          { c.line i j with lru := ((c.line i j).lru + 1) % 4 }
        else c.line i j := by
  unfold set_lru NO_OF_LINES
  simp only [Bool.false_eq_true, if_false, set_lru_inc_loop_line]
  simp

/-- An access leaves every other set alone. -/
theorem step_line_other (s : State) (a : Access) (i j : Nat)
    (hi : i ≠ temp_index a.mem_addr) :
    (main_step s a).l1cache.line i j = s.l1cache.line i j := by
  rw [main_step_l1cache]
  rcases check_cache_cases s.l1cache (temp_tag a.mem_addr) (temp_index a.mem_addr)
    with h | h | h
  · obtain ⟨a1, a2, a3, -⟩ := h
    have e1 : (lookup s a).hit_flag = true := a1
    have e3 : (lookup s a).l1cache = s.l1cache := a3
    rw [e1, e3, set_lru_line_hit]
    simp [hi]
    split <;> simp [hi]
  · obtain ⟨a1, a2, a3, -⟩ := h
    have e1 : (lookup s a).hit_flag = false := a1
    have e2 : (lookup s a).empty_flag = true := a2
    have e3 : (lookup s a).l1cache = _ := a3
    rw [e1, e2, e3, set_lru_line_fill]
    simp [hi]
  · obtain ⟨a1, a2, a3, -⟩ := h
    have e1 : (lookup s a).hit_flag = false := a1
    have e2 : (lookup s a).empty_flag = false := a2
    have e3 : (lookup s a).l1cache = s.l1cache := a3
    rw [e1, e2, e3, set_lru_line_evict]
    simp [hi]

/-- The accessed set after a hit. -/
theorem step_line_hit (s : State) (a : Access)
    (h : IsHit s.l1cache (temp_tag a.mem_addr) (temp_index a.mem_addr) (lookup s a)) (j : Nat) :
    (main_step s a).l1cache.line (temp_index a.mem_addr) j
      = if j = (lookup s a).line_num then
          { s.l1cache.line (temp_index a.mem_addr) j with
            lru := 0
            dirty := if a.arg0 = 'w' ∨ a.arg0 = 'W' then true
                     else (s.l1cache.line (temp_index a.mem_addr) j).dirty }
        else if j < 4 ∧ (s.l1cache.line (temp_index a.mem_addr) j).lru
              < (s.l1cache.line (temp_index a.mem_addr) (lookup s a).line_num).lru then
          { s.l1cache.line (temp_index a.mem_addr) j with
            lru := ((s.l1cache.line (temp_index a.mem_addr) j).lru + 1) % 4 }
        else s.l1cache.line (temp_index a.mem_addr) j := by
  rw [main_step_l1cache]
  obtain ⟨a1, a2, a3, -⟩ := h
  rw [a1, a3, set_lru_line_hit]
  by_cases hw : a.arg0 = 'w' ∨ a.arg0 = 'W'
  · simp only [if_pos hw, if_true, setLine_line, true_and]
    by_cases hj : j = (lookup s a).line_num
    · simp [hj]
    · simp [hj]
  · simp only [if_neg hw, if_true, true_and]
    by_cases hj : j = (lookup s a).line_num
    · simp [hj]
    · simp [hj]

/-- The accessed set after a miss into an empty line. -/
theorem step_line_fill (s : State) (a : Access)
    (h : IsFill s.l1cache (temp_tag a.mem_addr) (temp_index a.mem_addr) (lookup s a)) (j : Nat) :
    (main_step s a).l1cache.line (temp_index a.mem_addr) j
      = if j = (lookup s a).line_num then
          { tag := temp_tag a.mem_addr % 2 ^ 17, lru := 0, valid := true, dirty := false }
        else if j < (lookup s a).line_num then
          { s.l1cache.line (temp_index a.mem_addr) j with
            lru := ((s.l1cache.line (temp_index a.mem_addr) j).lru + 1) % 4 }
        else s.l1cache.line (temp_index a.mem_addr) j := by
  rw [main_step_l1cache]
  obtain ⟨a1, a2, a3, -⟩ := h
  rw [a1, a2, a3, set_lru_line_fill]
  by_cases hj : j = (lookup s a).line_num
  · simp [hj]
  · simp [hj]

/-- The accessed set after a miss in a set without an empty line. -/
theorem step_line_evict (s : State) (a : Access)
    (h : IsEvict s.l1cache (temp_tag a.mem_addr) (temp_index a.mem_addr) (lookup s a))
    (j : Nat) :
    (main_step s a).l1cache.line (temp_index a.mem_addr) j
      = if j = (lookup s a).line_num then
          { tag := temp_tag a.mem_addr % 2 ^ 17
            lru := ((s.l1cache.line (temp_index a.mem_addr) j).lru + 1) % 4
            valid := (s.l1cache.line (temp_index a.mem_addr) j).valid
            dirty := false }
        else if j < 4 then
          { s.l1cache.line (temp_index a.mem_addr) j with
            lru := ((s.l1cache.line (temp_index a.mem_addr) j).lru + 1) % 4 }
        else s.l1cache.line (temp_index a.mem_addr) j := by
  rw [main_step_l1cache]
  obtain ⟨a1, a2, a3, a4, -⟩ := h
  rw [a1, a2, a3, set_lru_line_evict]
  by_cases hj : j = (lookup s a).line_num
  · simp [hj, a4]
  · simp [hj]

theorem lookup_cases (s : State) (a : Access) :
    IsHit s.l1cache (temp_tag a.mem_addr) (temp_index a.mem_addr) (lookup s a)
      ∨ IsFill s.l1cache (temp_tag a.mem_addr) (temp_index a.mem_addr) (lookup s a)
      ∨ IsEvict s.l1cache (temp_tag a.mem_addr) (temp_index a.mem_addr) (lookup s a) :=
  check_cache_cases s.l1cache (temp_tag a.mem_addr) (temp_index a.mem_addr)

/-! ### Field-wise form of the three transitions of the accessed set -/

theorem hit_lru (s : State) (a : Access)
    (h : IsHit s.l1cache (temp_tag a.mem_addr) (temp_index a.mem_addr) (lookup s a)) (j : Nat) :
    ((main_step s a).l1cache.line (temp_index a.mem_addr) j).lru
      = if j = (lookup s a).line_num then 0
        else if j < 4 ∧ (s.l1cache.line (temp_index a.mem_addr) j).lru
              < (s.l1cache.line (temp_index a.mem_addr) (lookup s a).line_num).lru then
          ((s.l1cache.line (temp_index a.mem_addr) j).lru + 1) % 4
        else (s.l1cache.line (temp_index a.mem_addr) j).lru := by
  rw [step_line_hit s a h j]
  split_ifs <;> rfl

theorem hit_valid (s : State) (a : Access)
    (h : IsHit s.l1cache (temp_tag a.mem_addr) (temp_index a.mem_addr) (lookup s a)) (j : Nat) :
    ((main_step s a).l1cache.line (temp_index a.mem_addr) j).valid
      = (s.l1cache.line (temp_index a.mem_addr) j).valid := by
  rw [step_line_hit s a h j]
  split_ifs <;> rfl

theorem hit_tag (s : State) (a : Access)
    (h : IsHit s.l1cache (temp_tag a.mem_addr) (temp_index a.mem_addr) (lookup s a)) (j : Nat) :
    ((main_step s a).l1cache.line (temp_index a.mem_addr) j).tag
      = (s.l1cache.line (temp_index a.mem_addr) j).tag := by
  rw [step_line_hit s a h j]
  split_ifs <;> rfl

theorem hit_dirty (s : State) (a : Access)
    (h : IsHit s.l1cache (temp_tag a.mem_addr) (temp_index a.mem_addr) (lookup s a)) (j : Nat) :
    ((main_step s a).l1cache.line (temp_index a.mem_addr) j).dirty
      = if j = (lookup s a).line_num ∧ (a.arg0 = 'w' ∨ a.arg0 = 'W') then true
        else (s.l1cache.line (temp_index a.mem_addr) j).dirty := by
  rw [step_line_hit s a h j]
  split_ifs <;> first | rfl | (exfalso; tauto)

theorem fill_lru (s : State) (a : Access)
    (h : IsFill s.l1cache (temp_tag a.mem_addr) (temp_index a.mem_addr) (lookup s a)) (j : Nat) :
    ((main_step s a).l1cache.line (temp_index a.mem_addr) j).lru
      = if j = (lookup s a).line_num then 0
        else if j < (lookup s a).line_num then
          ((s.l1cache.line (temp_index a.mem_addr) j).lru + 1) % 4
        else (s.l1cache.line (temp_index a.mem_addr) j).lru := by
  rw [step_line_fill s a h j]
  split_ifs <;> rfl

theorem fill_valid (s : State) (a : Access)
    (h : IsFill s.l1cache (temp_tag a.mem_addr) (temp_index a.mem_addr) (lookup s a)) (j : Nat) :
    ((main_step s a).l1cache.line (temp_index a.mem_addr) j).valid
      = if j = (lookup s a).line_num then true
        else (s.l1cache.line (temp_index a.mem_addr) j).valid := by
  rw [step_line_fill s a h j]
  split_ifs <;> rfl

theorem fill_tag (s : State) (a : Access)
    (h : IsFill s.l1cache (temp_tag a.mem_addr) (temp_index a.mem_addr) (lookup s a)) (j : Nat) :
    ((main_step s a).l1cache.line (temp_index a.mem_addr) j).tag
      = if j = (lookup s a).line_num then temp_tag a.mem_addr % 2 ^ 17
        else (s.l1cache.line (temp_index a.mem_addr) j).tag := by
  rw [step_line_fill s a h j]
  split_ifs <;> rfl

theorem fill_dirty (s : State) (a : Access)
    (h : IsFill s.l1cache (temp_tag a.mem_addr) (temp_index a.mem_addr) (lookup s a)) (j : Nat) :
    ((main_step s a).l1cache.line (temp_index a.mem_addr) j).dirty
      = if j = (lookup s a).line_num then false
        else (s.l1cache.line (temp_index a.mem_addr) j).dirty := by
  rw [step_line_fill s a h j]
  split_ifs <;> rfl

theorem evict_lru (s : State) (a : Access)
    (h : IsEvict s.l1cache (temp_tag a.mem_addr) (temp_index a.mem_addr) (lookup s a))
    (j : Nat) :
    ((main_step s a).l1cache.line (temp_index a.mem_addr) j).lru
      = if j < 4 then ((s.l1cache.line (temp_index a.mem_addr) j).lru + 1) % 4
        else (s.l1cache.line (temp_index a.mem_addr) j).lru := by
  rw [step_line_evict s a h j]
  have hn : (lookup s a).line_num < 4 := h.2.2.2.1
  split_ifs <;> first | rfl | (exfalso; omega)

theorem evict_valid (s : State) (a : Access)
    (h : IsEvict s.l1cache (temp_tag a.mem_addr) (temp_index a.mem_addr) (lookup s a))
    (j : Nat) :
    ((main_step s a).l1cache.line (temp_index a.mem_addr) j).valid
      = (s.l1cache.line (temp_index a.mem_addr) j).valid := by
  rw [step_line_evict s a h j]
  split_ifs <;> rfl

theorem evict_tag (s : State) (a : Access)
    (h : IsEvict s.l1cache (temp_tag a.mem_addr) (temp_index a.mem_addr) (lookup s a))
    (j : Nat) :
    ((main_step s a).l1cache.line (temp_index a.mem_addr) j).tag
      = if j = (lookup s a).line_num then temp_tag a.mem_addr % 2 ^ 17
        else (s.l1cache.line (temp_index a.mem_addr) j).tag := by
  rw [step_line_evict s a h j]
  split_ifs <;> rfl

theorem evict_dirty (s : State) (a : Access)
    (h : IsEvict s.l1cache (temp_tag a.mem_addr) (temp_index a.mem_addr) (lookup s a))
    (j : Nat) :
    ((main_step s a).l1cache.line (temp_index a.mem_addr) j).dirty
      = if j = (lookup s a).line_num then false
        else (s.l1cache.line (temp_index a.mem_addr) j).dirty := by
  rw [step_line_evict s a h j]
  split_ifs <;> rfl

theorem run_nil (s : State) : run s [] = s := rfl

theorem run_cons (s : State) (a : Access) (tr : List Access) :
    run s (a :: tr) = run (main_step s a) tr := rfl

theorem run_snoc (s : State) (tr : List Access) (a : Access) :
    run s (tr ++ [a]) = main_step (run s tr) a := by
  unfold run
  rw [List.foldl_append]
  rfl

/-- An injective map of `{0..k-1}` into itself reaches every value. -/
theorem surj_of_inj_below (f : Nat → Nat) (k : Nat) (hb : ∀ j, j < k → f j < k)
    (hinj : ∀ a b, a < k → b < k → f a = f b → a = b) :
    ∀ r, r < k → ∃ j, j < k ∧ f j = r := by
  intro r hr
  let g : Fin k → Fin k := fun x => ⟨f x.1, hb x.1 x.2⟩
  have hg : Function.Injective g := by
    intro x y hxy
    have h1 : f x.1 = f y.1 := congrArg Fin.val hxy
    exact Fin.ext (hinj x.1 y.1 x.2 y.2 h1)
  have hs : Function.Surjective g := Finite.injective_iff_surjective.mp hg
  obtain ⟨x, hx⟩ := hs ⟨r, hr⟩
  exact ⟨x.1, x.2, congrArg Fin.val hx⟩

theorem SetInv_init (i : Nat) : SetInv init.l1cache i := by
  refine ⟨0, by omega, ?_, ?_, ?_⟩
  · intro j _
    simp [init]
  · intro j hj; omega
  · intro a b ha; omega

/-- One access preserves the filling discipline and the rank permutation of every set. -/
theorem SetInv_step (s : State) (a : Access) (i : Nat) (h : SetInv s.l1cache i) :
    SetInv (main_step s a).l1cache i := by
  by_cases hi : i = temp_index a.mem_addr
  · subst hi
    obtain ⟨k, hk, hv, hb, hinj⟩ := h
    rcases lookup_cases s a with hc | hc | hc
    · -- hit
      have hl := hit_lru s a hc
      have hvl := hit_valid s a hc
      obtain ⟨-, -, -, hn4, hnv, -, -⟩ := hc
      have hnk : (lookup s a).line_num < k := (hv _ hn4).mp hnv
      have hnb := hb _ hnk
      refine ⟨k, hk, ?_, ?_, ?_⟩
      · intro j hj
        rw [hvl j]
        exact hv j hj
      · intro j hj
        rw [hl j]
        have hjb := hb j hj
        split_ifs <;> omega
      · intro x y hx hy
        rw [hl x, hl y]
        have hxb := hb x hx
        have hyb := hb y hy
        have i1 := hinj x y hx hy
        have i2 := hinj x _ hx hnk
        have i3 := hinj y _ hy hnk
        intro h3
        split_ifs at h3 <;> omega
    · -- miss into an empty line
      have hl := fill_lru s a hc
      have hvl := fill_valid s a hc
      obtain ⟨-, -, -, hn4, hnv, hmm⟩ := hc
      have hnk : ¬ (lookup s a).line_num < k := by
        intro h1
        have := (hv _ hn4).mpr h1
        rw [hnv] at this
        exact Bool.false_ne_true this
      have hkn : ¬ k < (lookup s a).line_num := by
        intro h1
        have h2 := (hmm k (Nat.zero_le _) h1).1
        have h3 := (hv k (by omega)).mp h2
        omega
      have hnk' : (lookup s a).line_num = k := by omega
      refine ⟨k + 1, by omega, ?_, ?_, ?_⟩
      · intro j hj
        rw [hvl j]
        have hvj := hv j hj
        split_ifs with h1
        · constructor
          · intro _; omega
          · intro _; rfl
        · constructor
          · intro h2; have := hvj.mp h2; omega
          · intro _; exact hvj.mpr (by omega)
      · intro j hj
        rw [hl j]
        split_ifs with h1 h2
        · omega
        · have hjb := hb j (by omega)
          omega
        · omega
      · intro x y hx hy
        rw [hl x, hl y]
        intro h3
        by_cases h1 : x = (lookup s a).line_num
        · by_cases h2 : y = (lookup s a).line_num
          · omega
          · have hyb := hb y (by omega)
            rw [if_pos h1, if_neg h2, if_pos (by omega)] at h3
            omega
        · by_cases h2 : y = (lookup s a).line_num
          · have hxb := hb x (by omega)
            rw [if_neg h1, if_pos h2, if_pos (by omega)] at h3
            omega
          · have hxb := hb x (by omega)
            have hyb := hb y (by omega)
            have i1 := hinj x y (by omega) (by omega)
            rw [if_neg h1, if_neg h2, if_pos (by omega), if_pos (by omega)] at h3
            omega
    · -- miss in a full set
      have hl := evict_lru s a hc
      have hvl := evict_valid s a hc
      obtain ⟨-, -, -, hn4, hmm, -⟩ := hc
      have hk4 : k = 4 := by
        have h2 := (hmm 3 (Nat.zero_le _) (by omega)).1
        have h3 := (hv 3 (by omega)).mp h2
        omega
      subst hk4
      refine ⟨4, hk, ?_, ?_, ?_⟩
      · intro j hj
        rw [hvl j]
        exact hv j hj
      · intro j hj
        rw [hl j, if_pos hj]
        omega
      · intro x y hx hy
        rw [hl x, hl y, if_pos hx, if_pos hy]
        have hxb := hb x hx
        have hyb := hb y hy
        have i1 := hinj x y hx hy
        omega
  · obtain ⟨k, hk, hv, hb, hinj⟩ := h
    refine ⟨k, hk, ?_, ?_, ?_⟩
    · intro j hj
      rw [step_line_other s a i j hi]
      exact hv j hj
    · intro j hj
      rw [step_line_other s a i j hi]
      exact hb j hj
    · intro x y hx hy
      rw [step_line_other s a i x hi, step_line_other s a i y hi]
      exact hinj x y hx hy

theorem SetInv_run (tr : List Access) :
    ∀ (s : State), (∀ i, SetInv s.l1cache i) → ∀ i, SetInv (run s tr).l1cache i := by
  induction tr with
  | nil => intro s h; exact h
  | cons a tr ih =>
    intro s h
    rw [run_cons]
    exact ih (main_step s a) (fun i => SetInv_step s a i (h i))

theorem SetInv_reachable (tr : List Access) (i : Nat) : SetInv (run init tr).l1cache i :=
  SetInv_run tr init SetInv_init i

theorem validCount_eq (c : Cache) (i k : Nat) (hk : k ≤ 4)
    (hv : ∀ j, j < 4 → ((c.line i j).valid = true ↔ j < k)) : validCount c i = k := by
  have e : ∀ j, j < 4 → (c.line i j).valid = decide (j < k) := by
    intro j hj
    have := hv j hj
    cases hx : (c.line i j).valid <;> simp_all
  have hr : List.range 4 = [0, 1, 2, 3] := by decide
  unfold validCount NO_OF_LINES
  rw [hr]
  simp only [List.filter_cons, List.filter_nil, e 0 (by omega), e 1 (by omega),
    e 2 (by omega), e 3 (by omega)]
  interval_cases k <;> simp

/-- C1. Rank uniqueness: after any finite sequence of accesses from the initial cache, in
every set the `lru` values of the valid lines are pairwise distinct, and the set of these
values is exactly `{0, ..., k-1}` where `k` is the number of valid lines of the set. -/
theorem rank_uniqueness (tr : List Access) (i : Nat) :
    (∀ a b, a < NO_OF_LINES → b < NO_OF_LINES →
        ((run init tr).l1cache.line i a).valid = true →
        ((run init tr).l1cache.line i b).valid = true →
        a ≠ b →
        ((run init tr).l1cache.line i a).lru ≠ ((run init tr).l1cache.line i b).lru)
    ∧ (∀ r, r < validCount (run init tr).l1cache i ↔
        ∃ j, j < NO_OF_LINES ∧ ((run init tr).l1cache.line i j).valid = true
          ∧ ((run init tr).l1cache.line i j).lru = r) := by
  obtain ⟨k, hk, hv, hb, hinj⟩ := SetInv_reachable tr i
  rw [validCount_eq _ i k hk hv]
  unfold NO_OF_LINES
  constructor
  · intro a b ha hb' hva hvb hab heq
    exact hab (hinj a b ((hv a ha).mp hva) ((hv b hb').mp hvb) heq)
  · intro r
    constructor
    · intro hr
      obtain ⟨j, hj, hjr⟩ := surj_of_inj_below
        (fun j => ((run init tr).l1cache.line i j).lru) k hb hinj r hr
      exact ⟨j, by omega, (hv j (by omega)).mpr hj, hjr⟩
    · rintro ⟨j, hj, hvj, hjr⟩
      rw [← hjr]
      exact hb j ((hv j hj).mp hvj)

/-! ## Address decoding -/

theorem shiftRight_land (a b i : Nat) : (a &&& b) >>> i = (a >>> i) &&& (b >>> i) := by
  apply Nat.eq_of_testBit_eq
  intro j
  simp only [Nat.testBit_shiftRight, Nat.testBit_and]

theorem temp_tag_eq (a : Nat) : temp_tag a = a / 2 ^ 15 % 2 ^ 17 := by
  unfold temp_tag TAG_MSK TAG_VAL
  rw [shiftRight_land]
  have h : (0xFFFF8000 : Nat) >>> 15 = 2 ^ 17 - 1 := by decide
  rw [h, Nat.and_pow_two_sub_one_eq_mod, Nat.shiftRight_eq_div_pow]

theorem temp_index_eq (a : Nat) : temp_index a = a / 2 ^ 5 % 2 ^ 10 := by
  unfold temp_index INDEX_MSK INDEX_VAL
  rw [shiftRight_land]
  have h : (0x00007FE0 : Nat) >>> 5 = 2 ^ 10 - 1 := by decide
  rw [h, Nat.and_pow_two_sub_one_eq_mod, Nat.shiftRight_eq_div_pow]

theorem temp_offset_eq (a : Nat) : temp_offset a = a % 2 ^ 5 := by
  unfold temp_offset OFFSET_MSK
  have h : (0x0000001F : Nat) = 2 ^ 5 - 1 := by decide
  rw [h, Nat.and_pow_two_sub_one_eq_mod]

theorem temp_tag_lt (a : Nat) : temp_tag a < 2 ^ 17 := by
  rw [temp_tag_eq]
  exact Nat.mod_lt _ (by decide)

theorem temp_index_lt (a : Nat) : temp_index a < NO_OF_SETS := by
  rw [temp_index_eq]
  exact Nat.mod_lt _ (by decide)

theorem temp_tag_mod (a : Nat) : temp_tag a % 2 ^ 17 = temp_tag a :=
  Nat.mod_eq_of_lt (temp_tag_lt a)

/-- C10. Address decoding is total and lossless: for a 32-bit address the three fields are
within their widths (tag below `2^17`, index below `NO_OF_SETS`, offset below
`SIZE_OF_LINE`) and recompose to the address; and every triple within these bounds is the
decoding of exactly one 32-bit address. -/
theorem decode_lossless :
    (∀ a, a < 2 ^ 32 →
        temp_tag a < 2 ^ 17 ∧ temp_index a < NO_OF_SETS ∧ temp_offset a < SIZE_OF_LINE
          ∧ a = temp_tag a * 2 ^ 15 + temp_index a * 2 ^ 5 + temp_offset a)
    ∧ (∀ t i o, t < 2 ^ 17 → i < NO_OF_SETS → o < SIZE_OF_LINE →
        ∃! a, a < 2 ^ 32 ∧ temp_tag a = t ∧ temp_index a = i ∧ temp_offset a = o) := by
  unfold NO_OF_SETS SIZE_OF_LINE
  constructor
  · intro a ha
    rw [temp_tag_eq, temp_index_eq, temp_offset_eq]
    norm_num at ha ⊢
    omega
  · intro t i o ht hi ho
    refine ⟨t * 2 ^ 15 + i * 2 ^ 5 + o, ?_, ?_⟩
    · show _ ∧ _ ∧ _ ∧ _
      rw [temp_tag_eq, temp_index_eq, temp_offset_eq]
      norm_num at ht ⊢
      omega
    · intro b hb
      rw [temp_tag_eq, temp_index_eq, temp_offset_eq] at hb
      norm_num at ht hb ⊢
      omega

/-- C10 at the address `0xDEADBEEF`. -/
theorem decode_lossless_witness :
    (temp_tag 0xDEADBEEF < 2 ^ 17 ∧ temp_index 0xDEADBEEF < NO_OF_SETS
        ∧ temp_offset 0xDEADBEEF < SIZE_OF_LINE
        ∧ 0xDEADBEEF
            = temp_tag 0xDEADBEEF * 2 ^ 15 + temp_index 0xDEADBEEF * 2 ^ 5
                + temp_offset 0xDEADBEEF)
    ∧ (∃! a, a < 2 ^ 32 ∧ temp_tag a = 0x1BD5B ∧ temp_index a = 0x1F7 ∧ temp_offset a = 0xF) :=
  ⟨decode_lossless.1 0xDEADBEEF (by decide),
   decode_lossless.2 0x1BD5B 0x1F7 0xF (by decide) (by decide) (by decide)⟩

/-- In a set that satisfies the invariant, a miss without an empty line selects the unique
line of rank 3. -/
theorem evict_rank3 (c : Cache) (tag index : Nat) (r : CheckOut) (hinv : SetInv c index)
    (h : IsEvict c tag index r) :
    (c.line index r.line_num).lru = 3
      ∧ (∀ j, j < 4 → (c.line index j).lru < 4)
      ∧ (∀ j, j < 4 → (c.line index j).lru = 3 → j = r.line_num)
      ∧ (∀ x y, x < 4 → y < 4 → (c.line index x).lru = (c.line index y).lru → x = y) := by
  obtain ⟨k, hk, hv, hb, hinj⟩ := hinv
  obtain ⟨-, -, -, hn4, hmm, hsel⟩ := h
  have hk4 : k = 4 := by
    have h2 := (hmm 3 (Nat.zero_le _) (by omega)).1
    have h3 := (hv 3 (by omega)).mp h2
    omega
  subst hk4
  have h3 : (c.line index r.line_num).lru = 3 := by
    rcases hsel with ⟨-, hno⟩ | ⟨h3, -⟩
    · obtain ⟨j, hj, hj3⟩ := surj_of_inj_below (fun j => (c.line index j).lru) 4 hb hinj 3
        (by omega)
      exact absurd hj3 (hno j hj)
    · exact h3
  refine ⟨h3, hb, ?_, hinj⟩
  intro j hj hj3
  exact hinj j _ hj hn4 (by rw [hj3, h3])

/-- A full set none of whose lines holds the tag makes `check_cache` report a miss without
an empty line. -/
theorem lookup_full_miss (s : State) (a : Access)
    (hfull : ∀ j, j < 4 → (s.l1cache.line (temp_index a.mem_addr) j).valid = true)
    (hmiss : ∀ j, j < 4 → (s.l1cache.line (temp_index a.mem_addr) j).tag ≠ temp_tag a.mem_addr) :
    IsEvict s.l1cache (temp_tag a.mem_addr) (temp_index a.mem_addr) (lookup s a) := by
  rcases lookup_cases s a with hc | hc | hc
  · obtain ⟨-, -, -, hn4, -, ht, -⟩ := hc
    exact absurd ht (hmiss _ hn4)
  · obtain ⟨-, -, -, hn4, hnv, -⟩ := hc
    rw [hfull _ hn4] at hnv
    exact absurd hnv (by decide)
  · exact hc

/-- C2. Eviction selects the rank-3 line: in a reachable state, for an access whose tag is
held by no line of its (full) set, `check_cache` reports neither a hit nor an empty line and
returns the unique line whose `lru` is 3; after the access that line holds the new tag and
has `lru` 0. -/
theorem eviction_selects_rank3 (tr : List Access) (a : Access)
    (hfull : ∀ j, j < NO_OF_LINES →
      ((run init tr).l1cache.line (temp_index a.mem_addr) j).valid = true)
    (hmiss : ∀ j, j < NO_OF_LINES →
      ((run init tr).l1cache.line (temp_index a.mem_addr) j).tag ≠ temp_tag a.mem_addr) :
    (lookup (run init tr) a).hit_flag = false
      ∧ (lookup (run init tr) a).empty_flag = false
      ∧ (lookup (run init tr) a).line_num < NO_OF_LINES
      ∧ ((run init tr).l1cache.line (temp_index a.mem_addr)
            (lookup (run init tr) a).line_num).lru = 3
      ∧ (∀ j, j < NO_OF_LINES →
            ((run init tr).l1cache.line (temp_index a.mem_addr) j).lru = 3 →
            j = (lookup (run init tr) a).line_num)
      ∧ ((main_step (run init tr) a).l1cache.line (temp_index a.mem_addr)
            (lookup (run init tr) a).line_num).tag = temp_tag a.mem_addr
      ∧ ((main_step (run init tr) a).l1cache.line (temp_index a.mem_addr)
            (lookup (run init tr) a).line_num).lru = 0 := by
  unfold NO_OF_LINES at *
  have hc := lookup_full_miss (run init tr) a hfull hmiss
  obtain ⟨h3, -, huniq, -⟩ :=
    evict_rank3 _ _ _ _ (SetInv_reachable tr (temp_index a.mem_addr)) hc
  have hn4 : (lookup (run init tr) a).line_num < 4 := hc.2.2.2.1
  refine ⟨hc.1, hc.2.1, hn4, h3, huniq, ?_, ?_⟩
  · rw [evict_tag _ _ hc, if_pos rfl, temp_tag_mod]
  · rw [evict_lru _ _ hc, if_pos hn4, h3]

/-- C2 on the trace that fills set 0 with tags 0, 1, 2, 3, followed by a read of tag 4. -/
theorem eviction_selects_rank3_witness :
    (lookup (run init [⟨'r', 0x0⟩, ⟨'r', 0x8000⟩, ⟨'r', 0x10000⟩, ⟨'r', 0x18000⟩])
        ⟨'r', 0x20000⟩).hit_flag = false
      ∧ (lookup (run init [⟨'r', 0x0⟩, ⟨'r', 0x8000⟩, ⟨'r', 0x10000⟩, ⟨'r', 0x18000⟩])
        ⟨'r', 0x20000⟩).empty_flag = false
      ∧ (lookup (run init [⟨'r', 0x0⟩, ⟨'r', 0x8000⟩, ⟨'r', 0x10000⟩, ⟨'r', 0x18000⟩])
        ⟨'r', 0x20000⟩).line_num = 0
      ∧ ((main_step (run init [⟨'r', 0x0⟩, ⟨'r', 0x8000⟩, ⟨'r', 0x10000⟩, ⟨'r', 0x18000⟩])
            ⟨'r', 0x20000⟩).l1cache.line 0 0).tag = 4
      ∧ ((main_step (run init [⟨'r', 0x0⟩, ⟨'r', 0x8000⟩, ⟨'r', 0x10000⟩, ⟨'r', 0x18000⟩])
            ⟨'r', 0x20000⟩).l1cache.line 0 0).lru = 0 := by
  have h := eviction_selects_rank3
    [⟨'r', 0x0⟩, ⟨'r', 0x8000⟩, ⟨'r', 0x10000⟩, ⟨'r', 0x18000⟩] ⟨'r', 0x20000⟩
    (by decide) (by decide)
  have hn : (lookup (run init [⟨'r', 0x0⟩, ⟨'r', 0x8000⟩, ⟨'r', 0x10000⟩, ⟨'r', 0x18000⟩])
        ⟨'r', 0x20000⟩).line_num = 0 := (h.2.2.2.2.1 0 (by decide) (by decide)).symm
  refine ⟨h.1, h.2.1, hn, ?_, ?_⟩
  · have := h.2.2.2.2.2.1
    rw [hn] at this
    exact this
  · have := h.2.2.2.2.2.2
    rw [hn] at this
    exact this

/-! ## Recency -/

theorem selections_snoc (tr : List Access) (a : Access) :
    ∀ s, selections s (tr ++ [a])
      = selections s tr ++ [(temp_index a.mem_addr, (lookup (run s tr) a).line_num)] := by
  induction tr with
  | nil => intro s; rfl
  | cons b tr ih =>
    intro s
    show _ :: selections (main_step s b) (tr ++ [a]) = _
    rw [ih (main_step s b)]
    rfl

theorem selections_length (tr : List Access) : ∀ s, (selections s tr).length = tr.length := by
  induction tr with
  | nil => intro s; rfl
  | cons b tr ih =>
    intro s
    show (selections (main_step s b) tr).length + 1 = tr.length + 1
    rw [ih]

theorem last_pos_snoc (x y : Nat × Nat) (l : List (Nat × Nat)) :
    last_pos x (l ++ [y]) = if y = x then some l.length else last_pos x l := by
  induction l with
  | nil =>
    show (match last_pos x [] with
      | some p => some (p + 1)
      | none => if y = x then some 0 else none) = _
    rfl
  | cons z l ih =>
    show (match last_pos x (l ++ [y]) with
      | some p => some (p + 1)
      | none => if z = x then some 0 else none)
      = if y = x then some (l.length + 1) else
          (match last_pos x l with
            | some p => some (p + 1)
            | none => if z = x then some 0 else none)
    rw [ih]
    by_cases h : y = x
    · rw [if_pos h, if_pos h]
    · rw [if_neg h, if_neg h]

/-- The position returned by `last_pos` holds `x`, and no later position does. -/
theorem last_pos_spec (x : Nat × Nat) (l : List (Nat × Nat)) (p : Nat)
    (h : last_pos x l = some p) :
    l[p]? = some x ∧ ∀ q, p < q → l[q]? ≠ some x := by
  induction l using List.reverseRecOn generalizing p with
  | nil => exact absurd h (by simp [last_pos])
  | append_singleton l y ih =>
    rw [last_pos_snoc] at h
    by_cases hy : y = x
    · rw [if_pos hy] at h
      have hp : l.length = p := Option.some.inj h
      subst hp
      constructor
      · simp [hy]
      · intro q hq
        rw [List.getElem?_eq_none (by simp; omega)]
        simp
    · rw [if_neg hy] at h
      obtain ⟨h1, h2⟩ := ih p h
      have hp : p < l.length := by
        by_contra hlt
        rw [List.getElem?_eq_none (by omega)] at h1
        exact absurd h1 (by simp)
      constructor
      · rw [List.getElem?_append_left hp]
        exact h1
      · intro q hq
        by_cases hql : q < l.length
        · rw [List.getElem?_append_left hql]
          exact h2 q hq
        · by_cases hqe : q = l.length
          · subst hqe
            simp [hy]
          · rw [List.getElem?_eq_none (by simp; omega)]
            simp

theorem last_access_snoc (tr : List Access) (a : Access) (i n : Nat) :
    last_access (tr ++ [a]) i n
      = if temp_index a.mem_addr = i ∧ (lookup (run init tr) a).line_num = n then
          some tr.length
        else last_access tr i n := by
  unfold last_access
  rw [selections_snoc, last_pos_snoc, selections_length]
  by_cases h : temp_index a.mem_addr = i ∧ (lookup (run init tr) a).line_num = n
  · rw [if_pos h, if_pos (by rw [h.1, h.2])]
  · rw [if_neg h, if_neg]
    intro h2
    apply h
    exact ⟨congrArg Prod.fst h2, congrArg Prod.snd h2⟩

theorem RecencyInv_nil (i : Nat) : RecencyInv [] i := by
  constructor
  · intro j _ hv
    exact absurd hv (by simp [run_nil, init])
  · intro x y px py _ _ _ hv
    exact absurd hv (by simp [run_nil, init])

theorem RecencyInv_snoc (tr : List Access) (a : Access) (i : Nat) (h : RecencyInv tr i) :
    RecencyInv (tr ++ [a]) i := by
  obtain ⟨hex, hord⟩ := h
  have hlen : (tr ++ [a]).length = tr.length + 1 := by simp
  by_cases hi : i = temp_index a.mem_addr
  · subst hi
    have hL : ∀ j, last_access (tr ++ [a]) (temp_index a.mem_addr) j
        = if (lookup (run init tr) a).line_num = j then some tr.length
          else last_access tr (temp_index a.mem_addr) j := by
      intro j
      rw [last_access_snoc]
      by_cases hj : (lookup (run init tr) a).line_num = j
      · rw [if_pos ⟨rfl, hj⟩, if_pos hj]
      · rw [if_neg (fun h => hj h.2), if_neg hj]
    have hinv := SetInv_reachable tr (temp_index a.mem_addr)
    obtain ⟨k, hk, hv, hb, hinj⟩ := hinv
    -- the part common to the three cases
    have key : (∀ j, j < 4 →
          ((main_step (run init tr) a).l1cache.line (temp_index a.mem_addr) j).valid = true →
          j ≠ (lookup (run init tr) a).line_num →
          ((run init tr).l1cache.line (temp_index a.mem_addr) j).valid = true) →
        (∀ y, y < 4 → y ≠ (lookup (run init tr) a).line_num →
          ((run init tr).l1cache.line (temp_index a.mem_addr) y).valid = true →
          ((main_step (run init tr) a).l1cache.line (temp_index a.mem_addr)
              (lookup (run init tr) a).line_num).lru
            < ((main_step (run init tr) a).l1cache.line (temp_index a.mem_addr) y).lru) →
        (∀ x y, x < 4 → y < 4 → x ≠ y → x ≠ (lookup (run init tr) a).line_num →
          y ≠ (lookup (run init tr) a).line_num →
          ((run init tr).l1cache.line (temp_index a.mem_addr) x).valid = true →
          ((run init tr).l1cache.line (temp_index a.mem_addr) y).valid = true →
          (((main_step (run init tr) a).l1cache.line (temp_index a.mem_addr) x).lru
              < ((main_step (run init tr) a).l1cache.line (temp_index a.mem_addr) y).lru
            ↔ ((run init tr).l1cache.line (temp_index a.mem_addr) x).lru
              < ((run init tr).l1cache.line (temp_index a.mem_addr) y).lru)) →
        RecencyInv (tr ++ [a]) (temp_index a.mem_addr) := by
      intro hval hnew hold
      constructor
      · intro j hj hvj
        rw [run_snoc] at hvj
        rw [hL j, hlen]
        by_cases hjn : (lookup (run init tr) a).line_num = j
        · rw [if_pos hjn]
          exact ⟨tr.length, rfl, by omega⟩
        · rw [if_neg hjn]
          obtain ⟨p, hp1, hp2⟩ := hex j hj (hval j hj hvj (fun h => hjn h.symm))
          exact ⟨p, hp1, by omega⟩
      · intro x y px py hx hy hxy hvx hvy hpx hpy
        rw [run_snoc] at hvx hvy ⊢
        rw [hL x] at hpx
        rw [hL y] at hpy
        by_cases hxn : (lookup (run init tr) a).line_num = x
        · have hyn : ¬ (lookup (run init tr) a).line_num = y := by omega
          rw [if_pos hxn] at hpx
          rw [if_neg hyn] at hpy
          have hvy0 := hval y hy hvy (fun h => hyn h.symm)
          obtain ⟨p, hp1, hp2⟩ := hex y hy hvy0
          rw [hp1] at hpy
          have e1 : tr.length = px := Option.some.inj hpx
          have e2 : p = py := Option.some.inj hpy
          have := hnew y hy (fun h => hyn h.symm) hvy0
          rw [hxn] at this
          constructor
          · intro _; omega
          · intro _; exact this
        · by_cases hyn : (lookup (run init tr) a).line_num = y
          · rw [if_neg hxn] at hpx
            rw [if_pos hyn] at hpy
            have hvx0 := hval x hx hvx (fun h => hxn h.symm)
            obtain ⟨p, hp1, hp2⟩ := hex x hx hvx0
            rw [hp1] at hpx
            have e1 : p = px := Option.some.inj hpx
            have e2 : tr.length = py := Option.some.inj hpy
            have := hnew x hx (fun h => hxn h.symm) hvx0
            rw [hyn] at this
            constructor
            · intro h1; omega
            · intro h1; omega
          · rw [if_neg hxn] at hpx
            rw [if_neg hyn] at hpy
            have hvx0 := hval x hx hvx (fun h => hxn h.symm)
            have hvy0 := hval y hy hvy (fun h => hyn h.symm)
            rw [hold x y hx hy hxy (fun h => hxn h.symm) (fun h => hyn h.symm) hvx0 hvy0]
            exact hord x y px py hx hy hxy hvx0 hvy0 hpx hpy
    rcases lookup_cases (run init tr) a with hc | hc | hc
    · -- hit
      have hl := hit_lru _ a hc
      have hvl := hit_valid _ a hc
      obtain ⟨-, -, -, hn4, hnv, -, -⟩ := hc
      have hnk : (lookup (run init tr) a).line_num < k := (hv _ hn4).mp hnv
      have hnb := hb _ hnk
      apply key
      · intro j hj hvj _
        rw [hvl j] at hvj
        exact hvj
      · intro y hy hyn hvy
        have hyk := (hv y hy).mp hvy
        have hyb := hb y hyk
        have i3 := hinj y _ hyk hnk
        rw [hl y, hl _, if_pos rfl, if_neg hyn]
        split_ifs <;> omega
      · intro x y hx hy hxy hxn hyn hvx hvy
        have hxk := (hv x hx).mp hvx
        have hyk := (hv y hy).mp hvy
        have hxb := hb x hxk
        have hyb := hb y hyk
        have i2 := hinj x _ hxk hnk
        have i3 := hinj y _ hyk hnk
        rw [hl x, hl y, if_neg hxn, if_neg hyn]
        split_ifs <;> omega
    · -- miss into an empty line
      have hl := fill_lru _ a hc
      have hvl := fill_valid _ a hc
      obtain ⟨-, -, -, hn4, hnv, hmm⟩ := hc
      have hnk : ¬ (lookup (run init tr) a).line_num < k := by
        intro h1
        have := (hv _ hn4).mpr h1
        rw [hnv] at this
        exact Bool.false_ne_true this
      have hkn : ¬ k < (lookup (run init tr) a).line_num := by
        intro h1
        have h2 := (hmm k (Nat.zero_le _) h1).1
        have h3 := (hv k (by omega)).mp h2
        omega
      apply key
      · intro j hj hvj hjn
        rw [hvl j, if_neg hjn] at hvj
        exact hvj
      · intro y hy hyn hvy
        have hyk := (hv y hy).mp hvy
        have hyb := hb y hyk
        rw [hl y, hl _, if_pos rfl, if_neg hyn, if_pos (by omega)]
        omega
      · intro x y hx hy hxy hxn hyn hvx hvy
        have hxk := (hv x hx).mp hvx
        have hyk := (hv y hy).mp hvy
        have hxb := hb x hxk
        have hyb := hb y hyk
        rw [hl x, hl y, if_neg hxn, if_neg hyn, if_pos (by omega), if_pos (by omega)]
        omega
    · -- miss in a full set
      have hl := evict_lru _ a hc
      have hvl := evict_valid _ a hc
      obtain ⟨h3, hb4, huniq, -⟩ := evict_rank3 _ _ _ _ ⟨k, hk, hv, hb, hinj⟩ hc
      have hn4 : (lookup (run init tr) a).line_num < 4 := hc.2.2.2.1
      apply key
      · intro j hj hvj _
        rw [hvl j] at hvj
        exact hvj
      · intro y hy hyn hvy
        have hyb := hb4 y hy
        have hy3 := huniq y hy
        rw [hl y, hl _, if_pos hn4, if_pos hy, h3]
        omega
      · intro x y hx hy hxy hxn hyn hvx hvy
        have hxb := hb4 x hx
        have hyb := hb4 y hy
        have hx3 := huniq x hx
        have hy3 := huniq y hy
        rw [hl x, hl y, if_pos hx, if_pos hy]
        omega
  · have hL : ∀ j, last_access (tr ++ [a]) i j = last_access tr i j := by
      intro j
      rw [last_access_snoc, if_neg]
      intro h
      exact hi h.1.symm
    constructor
    · intro j hj hvj
      rw [run_snoc, step_line_other _ a i j hi] at hvj
      obtain ⟨p, hp1, hp2⟩ := hex j hj hvj
      exact ⟨p, by rw [hL j]; exact hp1, by omega⟩
    · intro x y px py hx hy hxy hvx hvy hpx hpy
      rw [run_snoc, step_line_other _ a i _ hi] at hvx hvy ⊢
      rw [step_line_other _ a i _ hi]
      rw [hL] at hpx hpy
      exact hord x y px py hx hy hxy hvx hvy hpx hpy

theorem RecencyInv_reachable (tr : List Access) (i : Nat) : RecencyInv tr i := by
  induction tr using List.reverseRecOn with
  | nil => exact RecencyInv_nil i
  | append_singleton tr a ih => exact RecencyInv_snoc tr a i ih

/-- C3. Ranks follow true recency: in every reachable state, two distinct valid lines of a
set have each been selected by some access, and the one with the smaller `lru` is the one
whose most recent selecting access came later in the trace.  Consequently, when
`check_cache` reports a miss without an empty line, the line it returns for eviction is the
one whose most recent access is older than that of every other line of the set. -/
theorem recency_order (tr : List Access) (i : Nat) :
    (∀ x y, x < NO_OF_LINES → y < NO_OF_LINES → x ≠ y →
        ((run init tr).l1cache.line i x).valid = true →
        ((run init tr).l1cache.line i y).valid = true →
        ∃ px py, last_access tr i x = some px ∧ last_access tr i y = some py
          ∧ (((run init tr).l1cache.line i x).lru < ((run init tr).l1cache.line i y).lru
              ↔ py < px))
    ∧ (∀ a : Access, temp_index a.mem_addr = i →
        (lookup (run init tr) a).hit_flag = false →
        (lookup (run init tr) a).empty_flag = false →
        ∀ y, y < NO_OF_LINES → y ≠ (lookup (run init tr) a).line_num →
          ∃ pn py, last_access tr i (lookup (run init tr) a).line_num = some pn
            ∧ last_access tr i y = some py ∧ pn < py) := by
  unfold NO_OF_LINES
  obtain ⟨hex, hord⟩ := RecencyInv_reachable tr i
  constructor
  · intro x y hx hy hxy hvx hvy
    obtain ⟨px, hpx, -⟩ := hex x hx hvx
    obtain ⟨py, hpy, -⟩ := hex y hy hvy
    exact ⟨px, py, hpx, hpy, hord x y px py hx hy hxy hvx hvy hpx hpy⟩
  · intro a hi hh he y hy hyn
    subst hi
    have hc : IsEvict (run init tr).l1cache (temp_tag a.mem_addr) (temp_index a.mem_addr)
        (lookup (run init tr) a) := by
      rcases lookup_cases (run init tr) a with hc | hc | hc
      · rw [hc.1] at hh; exact absurd hh (by decide)
      · rw [hc.2.1] at he; exact absurd he (by decide)
      · exact hc
    obtain ⟨h3, hb4, huniq, -⟩ :=
      evict_rank3 _ _ _ _ (SetInv_reachable tr (temp_index a.mem_addr)) hc
    have hn4 : (lookup (run init tr) a).line_num < 4 := hc.2.2.2.1
    have hall := hc.2.2.2.2.1
    have hvn := (hall _ (Nat.zero_le _) hn4).1
    have hvy := (hall y (Nat.zero_le _) hy).1
    obtain ⟨pn, hpn, -⟩ := hex _ hn4 hvn
    obtain ⟨py, hpy, -⟩ := hex y hy hvy
    refine ⟨pn, py, hpn, hpy, ?_⟩
    have := hord y _ py pn hy hn4 hyn hvy hvn hpy hpn
    have hyb := hb4 y hy
    have hy3 := huniq y hy
    rw [h3] at this
    exact this.mp (by omega)

/-! ## Determining the outcome of a lookup -/

theorem lookup_hit_at (s : State) (a : Access) (n : Nat) (hn : n < 4)
    (hmm : AllMismatch s.l1cache (temp_tag a.mem_addr) (temp_index a.mem_addr) 0 n)
    (hv : (s.l1cache.line (temp_index a.mem_addr) n).valid = true)
    (ht : (s.l1cache.line (temp_index a.mem_addr) n).tag = temp_tag a.mem_addr) :
    IsHit s.l1cache (temp_tag a.mem_addr) (temp_index a.mem_addr) (lookup s a)
      ∧ (lookup s a).line_num = n := by
  rcases lookup_cases s a with hc | hc | hc
  · refine ⟨hc, ?_⟩
    obtain ⟨-, -, -, hn4, hv', ht', hmm'⟩ := hc
    by_contra hne
    rcases Nat.lt_or_gt_of_ne hne with h1 | h1
    · exact (hmm _ (Nat.zero_le _) h1).2 ht'
    · exact (hmm' n (Nat.zero_le _) h1).2 ht
  · exfalso
    obtain ⟨-, -, -, hn4, hv', hmm'⟩ := hc
    by_cases h1 : (lookup s a).line_num < n
    · have := (hmm _ (Nat.zero_le _) h1).1
      rw [hv'] at this
      exact Bool.false_ne_true this
    · by_cases h2 : (lookup s a).line_num = n
      · rw [h2, hv] at hv'
        exact Bool.false_ne_true hv'.symm
      · exact (hmm' n (Nat.zero_le _) (by omega)).2 ht
  · exfalso
    exact (hc.2.2.2.2.1 n (Nat.zero_le _) hn).2 ht

theorem lookup_fill_at (s : State) (a : Access) (n : Nat) (hn : n < 4)
    (hmm : AllMismatch s.l1cache (temp_tag a.mem_addr) (temp_index a.mem_addr) 0 n)
    (hv : (s.l1cache.line (temp_index a.mem_addr) n).valid = false) :
    IsFill s.l1cache (temp_tag a.mem_addr) (temp_index a.mem_addr) (lookup s a)
      ∧ (lookup s a).line_num = n := by
  rcases lookup_cases s a with hc | hc | hc
  · exfalso
    obtain ⟨-, -, -, hn4, hv', ht', hmm'⟩ := hc
    by_cases h1 : (lookup s a).line_num < n
    · exact (hmm _ (Nat.zero_le _) h1).2 ht'
    · by_cases h2 : (lookup s a).line_num = n
      · rw [h2, hv] at hv'
        exact Bool.false_ne_true hv'
      · have := (hmm' n (Nat.zero_le _) (by omega)).1
        rw [hv] at this
        exact Bool.false_ne_true this
  · refine ⟨hc, ?_⟩
    obtain ⟨-, -, -, hn4, hv', hmm'⟩ := hc
    by_contra hne
    rcases Nat.lt_or_gt_of_ne hne with h1 | h1
    · have := (hmm _ (Nat.zero_le _) h1).1
      rw [hv'] at this
      exact Bool.false_ne_true this
    · have := (hmm' n (Nat.zero_le _) h1).1
      rw [hv] at this
      exact Bool.false_ne_true this
  · exfalso
    have := (hc.2.2.2.2.1 n (Nat.zero_le _) hn).1
    rw [hv] at this
    exact Bool.false_ne_true this

/-- After any access, the selected line is valid and holds the tag of the access, and the
lower-numbered lines of the set are valid and hold other tags. -/
theorem selected_resident (s : State) (a : Access) :
    (lookup s a).line_num < 4
      ∧ AllMismatch (main_step s a).l1cache (temp_tag a.mem_addr) (temp_index a.mem_addr) 0
          (lookup s a).line_num
      ∧ ((main_step s a).l1cache.line (temp_index a.mem_addr) (lookup s a).line_num).valid
          = true
      ∧ ((main_step s a).l1cache.line (temp_index a.mem_addr) (lookup s a).line_num).tag
          = temp_tag a.mem_addr := by
  rcases lookup_cases s a with hc | hc | hc
  · have hvl := hit_valid s a hc
    have htl := hit_tag s a hc
    obtain ⟨-, -, -, hn4, hv, ht, hmm⟩ := hc
    refine ⟨hn4, ?_, ?_, ?_⟩
    · intro j h1 h2
      rw [hvl j, htl j]
      exact hmm j h1 h2
    · rw [hvl]; exact hv
    · rw [htl]; exact ht
  · have hvl := fill_valid s a hc
    have htl := fill_tag s a hc
    obtain ⟨-, -, -, hn4, hv, hmm⟩ := hc
    refine ⟨hn4, ?_, ?_, ?_⟩
    · intro j h1 h2
      rw [hvl j, htl j, if_neg (by omega), if_neg (by omega)]
      exact hmm j h1 h2
    · rw [hvl, if_pos rfl]
    · rw [htl, if_pos rfl, temp_tag_mod]
  · have hvl := evict_valid s a hc
    have htl := evict_tag s a hc
    obtain ⟨-, -, -, hn4, hmm, -⟩ := hc
    refine ⟨hn4, ?_, ?_, ?_⟩
    · intro j h1 h2
      rw [hvl j, htl j, if_neg (by omega)]
      exact hmm j h1 (by omega)
    · rw [hvl]; exact (hmm _ (Nat.zero_le _) hn4).1
    · rw [htl, if_pos rfl, temp_tag_mod]

/-- C4. Hit consistency: in every state (reachable or not), an access followed immediately
by a second access with the same tag and index (whatever the two operations are) makes the
second access a hit on the line selected by the first, and that line has `lru` 0 after the
second access. -/
theorem hit_consistency (s : State) (a1 a2 : Access)
    (ht : temp_tag a2.mem_addr = temp_tag a1.mem_addr)
    (hi : temp_index a2.mem_addr = temp_index a1.mem_addr) :
    (lookup (main_step s a1) a2).hit_flag = true
      ∧ (lookup (main_step s a1) a2).line_num = (lookup s a1).line_num
      ∧ ((main_step (main_step s a1) a2).l1cache.line (temp_index a1.mem_addr)
            (lookup s a1).line_num).lru = 0 := by
  obtain ⟨hn4, hmm, hv, htg⟩ := selected_resident s a1
  rw [← ht, ← hi] at hmm htg
  rw [← hi] at hv
  obtain ⟨hc, hn⟩ := lookup_hit_at (main_step s a1) a2 _ hn4 hmm hv htg
  refine ⟨hc.1, hn, ?_⟩
  rw [← hi, hit_lru _ a2 hc, if_pos hn.symm]

/-- C4 on the initial cache: a read of address `0x12345678` followed by a write to
`0x1234567F` (same tag and index, another offset). -/
theorem hit_consistency_witness :
    (lookup (main_step init ⟨'r', 0x12345678⟩) ⟨'w', 0x1234567F⟩).hit_flag = true
      ∧ (lookup (main_step init ⟨'r', 0x12345678⟩) ⟨'w', 0x1234567F⟩).line_num
          = (lookup init ⟨'r', 0x12345678⟩).line_num
      ∧ ((main_step (main_step init ⟨'r', 0x12345678⟩) ⟨'w', 0x1234567F⟩).l1cache.line
            (temp_index 0x12345678) (lookup init ⟨'r', 0x12345678⟩).line_num).lru = 0 :=
  hit_consistency init ⟨'r', 0x12345678⟩ ⟨'w', 0x1234567F⟩ (by decide) (by decide)

/-! ## Cold fill -/

theorem Filled_step (s : State) (a : Access) (i m : Nat) (ts : Nat → Nat)
    (hF : Filled s.l1cache i m ts) (hm : m < 4) (hi : temp_index a.mem_addr = i)
    (hts : ts m = temp_tag a.mem_addr) (hne : ∀ j, j < m → ts j ≠ ts m) :
    IsFill s.l1cache (temp_tag a.mem_addr) (temp_index a.mem_addr) (lookup s a)
      ∧ (lookup s a).line_num = m
      ∧ Filled (main_step s a).l1cache i (m + 1) ts := by
  subst hi
  obtain ⟨h1, h2⟩ := hF
  have hmm : AllMismatch s.l1cache (temp_tag a.mem_addr) (temp_index a.mem_addr) 0 m := by
    intro j _ hj
    obtain ⟨e1, e2, -⟩ := h1 j hj
    refine ⟨e1, ?_⟩
    rw [e2, ← hts]
    exact hne j hj
  obtain ⟨hc, hn⟩ := lookup_fill_at s a m hm hmm (h2 m (le_refl _) hm)
  refine ⟨hc, hn, ?_, ?_⟩
  · intro j hj
    rw [fill_valid s a hc, fill_tag s a hc, fill_lru s a hc, hn]
    by_cases hjm : j = m
    · rw [if_pos hjm, if_pos hjm, if_pos hjm, temp_tag_mod, hjm, hts]
      exact ⟨rfl, rfl, by omega⟩
    · rw [if_neg hjm, if_neg hjm, if_neg hjm, if_pos (by omega)]
      obtain ⟨e1, e2, e3⟩ := h1 j (by omega)
      refine ⟨e1, e2, ?_⟩
      rw [e3]
      omega
  · intro j hj1 hj2
    rw [fill_valid s a hc, hn, if_neg (by omega)]
    exact h2 j (by omega) hj2

/-- C5. Cold-fill order: from any state in which the four lines of set `i` are invalid,
four consecutive accesses with index `i` and pairwise distinct tags are each a miss with
`empty_flag` set, the `k`-th access (`k = 0..3`) selects line `k`, and afterwards line `k`
holds the `k`-th tag with `lru = 3 - k`. -/
theorem cold_fill_order (s : State) (i : Nat) (a0 a1 a2 a3 : Access)
    (hempty : ∀ j, j < NO_OF_LINES → (s.l1cache.line i j).valid = false)
    (h0 : temp_index a0.mem_addr = i) (h1 : temp_index a1.mem_addr = i)
    (h2 : temp_index a2.mem_addr = i) (h3 : temp_index a3.mem_addr = i)
    (d01 : temp_tag a0.mem_addr ≠ temp_tag a1.mem_addr)
    (d02 : temp_tag a0.mem_addr ≠ temp_tag a2.mem_addr)
    (d03 : temp_tag a0.mem_addr ≠ temp_tag a3.mem_addr)
    (d12 : temp_tag a1.mem_addr ≠ temp_tag a2.mem_addr)
    (d13 : temp_tag a1.mem_addr ≠ temp_tag a3.mem_addr)
    (d23 : temp_tag a2.mem_addr ≠ temp_tag a3.mem_addr) :
    ((lookup s a0).hit_flag = false ∧ (lookup s a0).empty_flag = true
        ∧ (lookup s a0).line_num = 0)
    ∧ ((lookup (run s [a0]) a1).hit_flag = false
        ∧ (lookup (run s [a0]) a1).empty_flag = true
        ∧ (lookup (run s [a0]) a1).line_num = 1)
    ∧ ((lookup (run s [a0, a1]) a2).hit_flag = false
        ∧ (lookup (run s [a0, a1]) a2).empty_flag = true
        ∧ (lookup (run s [a0, a1]) a2).line_num = 2)
    ∧ ((lookup (run s [a0, a1, a2]) a3).hit_flag = false
        ∧ (lookup (run s [a0, a1, a2]) a3).empty_flag = true
        ∧ (lookup (run s [a0, a1, a2]) a3).line_num = 3)
    ∧ (((run s [a0, a1, a2, a3]).l1cache.line i 0).tag = temp_tag a0.mem_addr
        ∧ ((run s [a0, a1, a2, a3]).l1cache.line i 0).lru = 3)
    ∧ (((run s [a0, a1, a2, a3]).l1cache.line i 1).tag = temp_tag a1.mem_addr
        ∧ ((run s [a0, a1, a2, a3]).l1cache.line i 1).lru = 2)
    ∧ (((run s [a0, a1, a2, a3]).l1cache.line i 2).tag = temp_tag a2.mem_addr
        ∧ ((run s [a0, a1, a2, a3]).l1cache.line i 2).lru = 1)
    ∧ (((run s [a0, a1, a2, a3]).l1cache.line i 3).tag = temp_tag a3.mem_addr
        ∧ ((run s [a0, a1, a2, a3]).l1cache.line i 3).lru = 0) := by
  have hF0 : Filled s.l1cache i 0
      (fun j => if j = 0 then temp_tag a0.mem_addr else if j = 1 then temp_tag a1.mem_addr
        else if j = 2 then temp_tag a2.mem_addr else temp_tag a3.mem_addr) := by
    refine ⟨fun j hj => absurd hj (by omega), fun j _ hj => hempty j hj⟩
  obtain ⟨c0, n0, hF1⟩ := Filled_step s a0 i 0 _ hF0 (by omega) h0 rfl
    (fun j hj => absurd hj (by omega))
  obtain ⟨c1, n1, hF2⟩ := Filled_step (main_step s a0) a1 i 1 _ hF1 (by omega) h1 rfl (by
    intro j hj
    have : j = 0 := by omega
    subst this
    exact d01)
  obtain ⟨c2, n2, hF3⟩ := Filled_step (main_step (main_step s a0) a1) a2 i 2 _ hF2
    (by omega) h2 rfl (by
    intro j hj
    have : j = 0 ∨ j = 1 := by omega
    rcases this with rfl | rfl
    · exact d02
    · exact d12)
  obtain ⟨c3, n3, hF4⟩ := Filled_step (main_step (main_step (main_step s a0) a1) a2) a3 i 3 _
    hF3 (by omega) h3 rfl (by
    intro j hj
    have : j = 0 ∨ j = 1 ∨ j = 2 := by omega
    rcases this with rfl | rfl | rfl
    · exact d03
    · exact d13
    · exact d23)
  refine ⟨⟨c0.1, c0.2.1, n0⟩, ⟨c1.1, c1.2.1, n1⟩, ⟨c2.1, c2.2.1, n2⟩, ⟨c3.1, c3.2.1, n3⟩,
    ?_, ?_, ?_, ?_⟩
  · exact ⟨(hF4.1 0 (by omega)).2.1, (hF4.1 0 (by omega)).2.2⟩
  · exact ⟨(hF4.1 1 (by omega)).2.1, (hF4.1 1 (by omega)).2.2⟩
  · exact ⟨(hF4.1 2 (by omega)).2.1, (hF4.1 2 (by omega)).2.2⟩
  · exact ⟨(hF4.1 3 (by omega)).2.1, (hF4.1 3 (by omega)).2.2⟩

/-- C5 on the initial cache, set 5, tags 9, 8, 7, 6. -/
theorem cold_fill_order_witness :
    (((run init [⟨'r', 0x480A0⟩, ⟨'w', 0x400A0⟩, ⟨'r', 0x380A0⟩, ⟨'w', 0x300A0⟩]).l1cache.line
        5 0).tag = 9
      ∧ ((run init [⟨'r', 0x480A0⟩, ⟨'w', 0x400A0⟩, ⟨'r', 0x380A0⟩, ⟨'w', 0x300A0⟩]).l1cache.line
        5 0).lru = 3)
    ∧ (lookup (run init [⟨'r', 0x480A0⟩, ⟨'w', 0x400A0⟩, ⟨'r', 0x380A0⟩]) ⟨'w', 0x300A0⟩).line_num
        = 3 :=
  have h := cold_fill_order init 5 ⟨'r', 0x480A0⟩ ⟨'w', 0x400A0⟩ ⟨'r', 0x380A0⟩ ⟨'w', 0x300A0⟩
    (by decide) (by decide) (by decide) (by decide) (by decide) (by decide) (by decide)
    (by decide) (by decide) (by decide) (by decide)
  ⟨h.2.2.2.2.1, h.2.2.2.1.2.2⟩

/-! ## Counters -/

/-- `check_cache` changes no `dirty` bit. -/
theorem lookup_dirty (s : State) (a : Access) (i j : Nat) :
    ((lookup s a).l1cache.line i j).dirty = (s.l1cache.line i j).dirty := by
  rcases lookup_cases s a with hc | hc | hc
  · rw [hc.2.2.1]
  · rw [hc.2.2.1, setLine_line]
    split_ifs with h
    · rw [h.1, h.2]
    · rfl
  · rw [hc.2.2.1]

theorem main_step_accesses (s : State) (a : Access) :
    (main_step s a).accesses = add64 s.accesses 1 := by
  unfold main_step main_hit main_miss
  simp only []
  split_ifs <;> rfl

theorem main_step_hits (s : State) (a : Access) :
    (main_step s a).hits
      = if (lookup s a).hit_flag = true then add64 s.hits 1 else s.hits := by
  unfold main_step main_hit main_miss lookup
  simp only []
  split_ifs <;> rfl

theorem main_step_misses (s : State) (a : Access) :
    (main_step s a).misses
      = if (lookup s a).hit_flag = true then s.misses else add64 s.misses 1 := by
  unfold main_step main_hit main_miss lookup
  simp only []
  split_ifs <;> rfl

theorem main_step_reads (s : State) (a : Access) :
    (main_step s a).reads
      = if a.arg0 = 'r' ∨ a.arg0 = 'R' then add64 s.reads 1 else s.reads := by
  unfold main_step main_hit main_miss
  simp only []
  split_ifs <;> rfl

theorem main_step_writes (s : State) (a : Access) :
    (main_step s a).writes
      = if a.arg0 = 'r' ∨ a.arg0 = 'R' then s.writes
        else if a.arg0 = 'w' ∨ a.arg0 = 'W' then add64 s.writes 1 else s.writes := by
  unfold main_step main_hit main_miss
  simp only []
  split_ifs <;> rfl

theorem main_step_read_hits (s : State) (a : Access) :
    (main_step s a).read_hits
      = if (lookup s a).hit_flag = true ∧ (a.arg0 = 'r' ∨ a.arg0 = 'R') then
          add64 s.read_hits 1
        else s.read_hits := by
  unfold main_step main_hit main_miss lookup
  simp only []
  split_ifs <;> first | rfl | (exfalso; tauto)

theorem main_step_read_misses (s : State) (a : Access) :
    (main_step s a).read_misses
      = if (lookup s a).hit_flag = false ∧ (a.arg0 = 'r' ∨ a.arg0 = 'R') then
          add64 s.read_misses 1
        else s.read_misses := by
  unfold main_step main_hit main_miss lookup
  simp only []
  split_ifs <;> first | rfl | (exfalso; simp_all)

theorem main_step_write_hits (s : State) (a : Access) :
    (main_step s a).write_hits
      = if (lookup s a).hit_flag = true ∧ ¬ (a.arg0 = 'r' ∨ a.arg0 = 'R')
            ∧ (a.arg0 = 'w' ∨ a.arg0 = 'W') then
          add64 s.write_hits 1
        else s.write_hits := by
  unfold main_step main_hit main_miss lookup
  simp only []
  split_ifs <;> first | rfl | (exfalso; tauto)

theorem main_step_write_misses (s : State) (a : Access) :
    (main_step s a).write_misses
      = if (lookup s a).hit_flag = false ∧ ¬ (a.arg0 = 'r' ∨ a.arg0 = 'R')
            ∧ (a.arg0 = 'w' ∨ a.arg0 = 'W') then
          add64 s.write_misses 1
        else s.write_misses := by
  unfold main_step main_hit main_miss lookup
  simp only []
  split_ifs <;> first | rfl | (exfalso; simp_all)

theorem main_step_write_backs (s : State) (a : Access) :
    (main_step s a).write_backs
      = if (lookup s a).hit_flag = true then s.write_backs
        else if (s.l1cache.line (temp_index a.mem_addr) (lookup s a).line_num).dirty = true
          then add64 s.write_backs 1
        else s.write_backs := by
  rw [← lookup_dirty s a]
  unfold main_step main_hit main_miss lookup
  simp only []
  split_ifs <;> rfl

theorem main_step_clock_cycles (s : State) (a : Access) :
    (main_step s a).clock_cycles
      = if (lookup s a).hit_flag = true then add64 s.clock_cycles 1
        else if (s.l1cache.line (temp_index a.mem_addr) (lookup s a).line_num).dirty = true
          then add64 (add64 (add64 s.clock_cycles 1) 50) 50
        else add64 (add64 s.clock_cycles 1) 50 := by
  rw [← lookup_dirty s a]
  unfold main_step main_hit main_miss lookup
  simp only []
  split_ifs <;> rfl

/-! ## Dirty bits and write-backs -/

/-- C6. Dirty/write-back correctness, in every state (reachable or not), with the `uint_64`
counters incremented modulo `2^64`: (i) a write hit sets `dirty` on the selected line,
leaves `write_backs` unchanged and adds 1 cycle; (ii) a miss whose selected line has its
dirty bit set increments `write_backs` by 1 and adds 100 penalty cycles on top of the
1-cycle baseline, whereas a miss whose selected line is clean leaves `write_backs`
unchanged and adds 50 penalty cycles on top of the baseline. -/
theorem dirty_write_back (s : State) (a : Access) :
    ((lookup s a).hit_flag = true → (a.arg0 = 'w' ∨ a.arg0 = 'W') →
        ((main_step s a).l1cache.line (temp_index a.mem_addr) (lookup s a).line_num).dirty
            = true
          ∧ (main_step s a).write_backs = s.write_backs
          ∧ (main_step s a).clock_cycles = (s.clock_cycles + 1) % 2 ^ 64)
    ∧ ((lookup s a).hit_flag = false →
        (s.l1cache.line (temp_index a.mem_addr) (lookup s a).line_num).dirty = true →
        (main_step s a).write_backs = (s.write_backs + 1) % 2 ^ 64
          ∧ (main_step s a).clock_cycles = (s.clock_cycles + 1 + (50 + 50)) % 2 ^ 64)
    ∧ ((lookup s a).hit_flag = false →
        (s.l1cache.line (temp_index a.mem_addr) (lookup s a).line_num).dirty = false →
        (main_step s a).write_backs = s.write_backs
          ∧ (main_step s a).clock_cycles = (s.clock_cycles + 1 + 50) % 2 ^ 64) := by
  refine ⟨?_, ?_, ?_⟩
  · intro hh hw
    have hc : IsHit s.l1cache (temp_tag a.mem_addr) (temp_index a.mem_addr) (lookup s a) := by
      rcases lookup_cases s a with hc | hc | hc
      · exact hc
      · rw [hc.1] at hh; exact absurd hh (by decide)
      · rw [hc.1] at hh; exact absurd hh (by decide)
    refine ⟨?_, ?_, ?_⟩
    · rw [hit_dirty s a hc, if_pos ⟨rfl, hw⟩]
    · rw [main_step_write_backs, if_pos hh]
    · rw [main_step_clock_cycles, if_pos hh]
      rfl
  · intro hh hd
    have hh' : ¬ (lookup s a).hit_flag = true := by rw [hh]; decide
    refine ⟨?_, ?_⟩
    · rw [main_step_write_backs, if_neg hh', if_pos hd]
      rfl
    · rw [main_step_clock_cycles, if_neg hh', if_pos hd]
      unfold add64
      omega
  · intro hh hd
    have hh' : ¬ (lookup s a).hit_flag = true := by rw [hh]; decide
    have hd' : ¬ (s.l1cache.line (temp_index a.mem_addr) (lookup s a).line_num).dirty = true := by
      rw [hd]; decide
    refine ⟨?_, ?_⟩
    · rw [main_step_write_backs, if_neg hh', if_neg hd']
    · rw [main_step_clock_cycles, if_neg hh', if_neg hd']
      unfold add64
      omega

/-- The `dirty` bit of any line after one access. -/
theorem main_step_dirty (s : State) (a : Access) (i j : Nat) :
    ((main_step s a).l1cache.line i j).dirty
      = if i = temp_index a.mem_addr ∧ j = (lookup s a).line_num then
          (if (lookup s a).hit_flag = true then
            (if a.arg0 = 'w' ∨ a.arg0 = 'W' then true else (s.l1cache.line i j).dirty)
           else false)
        else (s.l1cache.line i j).dirty := by
  by_cases hi : i = temp_index a.mem_addr
  · subst hi
    rcases lookup_cases s a with hc | hc | hc
    · rw [hit_dirty s a hc, hc.1]
      by_cases hj : j = (lookup s a).line_num
      · by_cases hw : a.arg0 = 'w' ∨ a.arg0 = 'W'
        · rw [if_pos ⟨hj, hw⟩, if_pos ⟨rfl, hj⟩, if_pos rfl, if_pos hw]
        · rw [if_neg (fun h => hw h.2), if_pos ⟨rfl, hj⟩, if_pos rfl, if_neg hw]
      · rw [if_neg (fun h => hj h.1), if_neg (fun h => hj h.2)]
    · rw [fill_dirty s a hc, hc.1]
      by_cases hj : j = (lookup s a).line_num
      · rw [if_pos hj, if_pos ⟨rfl, hj⟩, if_neg (by decide)]
      · rw [if_neg hj, if_neg (fun h => hj h.2)]
    · rw [evict_dirty s a hc, hc.1]
      by_cases hj : j = (lookup s a).line_num
      · rw [if_pos hj, if_pos ⟨rfl, hj⟩, if_neg (by decide)]
      · rw [if_neg hj, if_neg (fun h => hj h.2)]
  · rw [step_line_other s a i j hi, if_neg (fun h => hi h.1)]

/-- C8. Write-miss dirty policy, in every state: after an access that misses (read or
write, with or without an empty line) the selected line is clean; and a `dirty` bit can
only change from false to true on the selected line of a hit whose operation is a write. -/
theorem write_miss_dirty_policy (s : State) (a : Access) :
    ((lookup s a).hit_flag = false →
        ((main_step s a).l1cache.line (temp_index a.mem_addr) (lookup s a).line_num).dirty
          = false)
    ∧ (∀ i j, (s.l1cache.line i j).dirty = false →
        ((main_step s a).l1cache.line i j).dirty = true →
        (lookup s a).hit_flag = true ∧ (a.arg0 = 'w' ∨ a.arg0 = 'W')
          ∧ i = temp_index a.mem_addr ∧ j = (lookup s a).line_num) := by
  constructor
  · intro hh
    rw [main_step_dirty, if_pos ⟨rfl, rfl⟩, if_neg (by rw [hh]; decide)]
  · intro i j h0 h1
    rw [main_step_dirty] at h1
    by_cases hij : i = temp_index a.mem_addr ∧ j = (lookup s a).line_num
    · rw [if_pos hij] at h1
      by_cases hh : (lookup s a).hit_flag = true
      · rw [if_pos hh] at h1
        by_cases hw : a.arg0 = 'w' ∨ a.arg0 = 'W'
        · exact ⟨hh, hw, hij.1, hij.2⟩
        · rw [if_neg hw, h0] at h1
          exact absurd h1 (by decide)
      · rw [if_neg hh] at h1
        exact absurd h1 (by decide)
    · rw [if_neg hij, h0] at h1
      exact absurd h1 (by decide)

/-! ## Statistics -/

theorem StatsInv_init : StatsInv init 0 := by
  refine ⟨⟨rfl, rfl, rfl, rfl⟩, fun _ => ⟨rfl, rfl, rfl, rfl, rfl⟩⟩

theorem StatsInv_step (s : State) (a : Access) (n : Nat) (h : StatsInv s n)
    (ha : isReadWrite a) : StatsInv (main_step s a) (n + 1) := by
  obtain ⟨⟨m1, m2, m3, m4⟩, hex⟩ := h
  unfold StatsInv
  rw [main_step_accesses, main_step_hits, main_step_misses, main_step_reads,
    main_step_writes, main_step_read_hits, main_step_read_misses, main_step_write_hits,
    main_step_write_misses]
  unfold add64
  have hp : (2 : Nat) ^ 64 = 18446744073709551616 := by norm_num
  rw [hp] at m1 m2 m3 m4 hex ⊢
  have e : ((lookup s a).hit_flag = false) = ¬ ((lookup s a).hit_flag = true) := by simp
  simp only [e]
  have hw : ¬ (a.arg0 = 'r' ∨ a.arg0 = 'R') → (a.arg0 = 'w' ∨ a.arg0 = 'W') := by
    intro hr
    rcases ha with h | h
    · exact absurd h hr
    · exact h
  by_cases hh : (lookup s a).hit_flag = true <;> by_cases hr : a.arg0 = 'r' ∨ a.arg0 = 'R'
  · simp only [hh, hr, if_true, if_false, true_and, false_and, not_true_eq_false,
      not_false_eq_true, and_false, and_true, Bool.false_eq_true]
    refine ⟨⟨by omega, by omega, by omega, by omega⟩, ?_⟩
    intro hn
    have := hex (by omega)
    omega
  · simp only [hh, hr, hw hr, if_true, if_false, true_and, false_and, not_true_eq_false,
      not_false_eq_true, and_false, and_true, Bool.false_eq_true]
    refine ⟨⟨by omega, by omega, by omega, by omega⟩, ?_⟩
    intro hn
    have := hex (by omega)
    omega
  · simp only [hh, hr, if_true, if_false, true_and, false_and, not_true_eq_false,
      not_false_eq_true, and_false, and_true, Bool.false_eq_true]
    refine ⟨⟨by omega, by omega, by omega, by omega⟩, ?_⟩
    intro hn
    have := hex (by omega)
    omega
  · simp only [hh, hr, hw hr, if_true, if_false, true_and, false_and, not_true_eq_false,
      not_false_eq_true, and_false, and_true, Bool.false_eq_true]
    refine ⟨⟨by omega, by omega, by omega, by omega⟩, ?_⟩
    intro hn
    have := hex (by omega)
    omega

theorem StatsInv_reachable (tr : List Access) (hrw : ∀ a ∈ tr, isReadWrite a) :
    StatsInv (run init tr) tr.length := by
  induction tr using List.reverseRecOn with
  | nil => exact StatsInv_init
  | append_singleton tr a ih =>
    rw [run_snoc, List.length_append]
    exact StatsInv_step _ a _ (ih (fun b hb => hrw b (List.mem_append_left _ hb)))
      (hrw a (by simp))

/-- C7. Statistics identity: after any finite sequence of accesses whose operation is a
read or a write, `hits + misses == accesses`, `read_hits + read_misses == reads`,
`write_hits + write_misses == writes` and `accesses == reads + writes` hold in the
`uint_64` arithmetic of the counters, and they hold as equalities of natural numbers for
every trace of fewer than `2^64` accesses (no counter has wrapped). -/
theorem statistics_identity (tr : List Access) (hrw : ∀ a ∈ tr, isReadWrite a) :
    ((((run init tr).hits + (run init tr).misses) % 2 ^ 64 = (run init tr).accesses
      ∧ ((run init tr).read_hits + (run init tr).read_misses) % 2 ^ 64 = (run init tr).reads
      ∧ ((run init tr).write_hits + (run init tr).write_misses) % 2 ^ 64
          = (run init tr).writes
      ∧ (run init tr).accesses = ((run init tr).reads + (run init tr).writes) % 2 ^ 64))
    ∧ (tr.length < 2 ^ 64 →
        (run init tr).hits + (run init tr).misses = (run init tr).accesses
          ∧ (run init tr).read_hits + (run init tr).read_misses = (run init tr).reads
          ∧ (run init tr).write_hits + (run init tr).write_misses = (run init tr).writes
          ∧ (run init tr).accesses = (run init tr).reads + (run init tr).writes) := by
  obtain ⟨⟨m1, m2, m3, m4⟩, hex⟩ := StatsInv_reachable tr hrw
  refine ⟨⟨m1, m2, m3, m4.symm⟩, ?_⟩
  intro hn
  obtain ⟨-, e1, e2, e3, e4⟩ := hex hn
  exact ⟨e1, e2, e3, e4⟩

/-- C7 on a trace of three reads and two writes with two hits. -/
theorem statistics_identity_witness :
    (run init [⟨'r', 0x0⟩, ⟨'W', 0x4⟩, ⟨'R', 0x8000⟩, ⟨'w', 0x20⟩, ⟨'r', 0x8010⟩]).hits
        + (run init [⟨'r', 0x0⟩, ⟨'W', 0x4⟩, ⟨'R', 0x8000⟩, ⟨'w', 0x20⟩, ⟨'r', 0x8010⟩]).misses
      = (run init [⟨'r', 0x0⟩, ⟨'W', 0x4⟩, ⟨'R', 0x8000⟩, ⟨'w', 0x20⟩, ⟨'r', 0x8010⟩]).accesses
    ∧ (run init [⟨'r', 0x0⟩, ⟨'W', 0x4⟩, ⟨'R', 0x8000⟩, ⟨'w', 0x20⟩, ⟨'r', 0x8010⟩]).accesses
      = (run init [⟨'r', 0x0⟩, ⟨'W', 0x4⟩, ⟨'R', 0x8000⟩, ⟨'w', 0x20⟩, ⟨'r', 0x8010⟩]).reads
        + (run init [⟨'r', 0x0⟩, ⟨'W', 0x4⟩, ⟨'R', 0x8000⟩, ⟨'w', 0x20⟩, ⟨'r', 0x8010⟩]).writes :=
  have h := (statistics_identity
    [⟨'r', 0x0⟩, ⟨'W', 0x4⟩, ⟨'R', 0x8000⟩, ⟨'w', 0x20⟩, ⟨'r', 0x8010⟩]
    (by decide)).2 (by decide)
  ⟨h.1, h.2.2.2⟩

/-! ## End-to-end: five writes to one set -/

theorem fill_step_clean (s : State) (a : Access) (i m : Nat) (ts : Nat → Nat)
    (hF : Filled s.l1cache i m ts) (hm : m < 4) (hi : temp_index a.mem_addr = i)
    (hts : ts m = temp_tag a.mem_addr) (hne : ∀ j, j < m → ts j ≠ ts m)
    (hcl : ∀ j, j < 4 → (s.l1cache.line i j).dirty = false) :
    ((lookup s a).hit_flag = false ∧ (lookup s a).empty_flag = true
        ∧ (lookup s a).line_num = m)
      ∧ Filled (main_step s a).l1cache i (m + 1) ts
      ∧ (∀ j, j < 4 → ((main_step s a).l1cache.line i j).dirty = false)
      ∧ (main_step s a).write_backs = s.write_backs
      ∧ (main_step s a).clock_cycles = add64 (add64 s.clock_cycles 1) 50 := by
  obtain ⟨hc, hn, hF'⟩ := Filled_step s a i m ts hF hm hi hts hne
  subst hi
  have hh : ¬ (lookup s a).hit_flag = true := by rw [hc.1]; decide
  have hd : ¬ (s.l1cache.line (temp_index a.mem_addr) (lookup s a).line_num).dirty = true := by
    rw [hcl _ hc.2.2.2.1]; decide
  refine ⟨⟨hc.1, hc.2.1, hn⟩, hF', ?_, ?_, ?_⟩
  · intro j hj
    rw [fill_dirty s a hc]
    split_ifs
    · rfl
    · exact hcl j hj
  · rw [main_step_write_backs, if_neg hh, if_neg hd]
  · rw [main_step_clock_cycles, if_neg hh, if_neg hd]

theorem evict_step_clean (s : State) (a : Access) (i : Nat) (ts : Nat → Nat)
    (hF : Filled s.l1cache i 4 ts) (hi : temp_index a.mem_addr = i)
    (hne : ∀ j, j < 4 → ts j ≠ temp_tag a.mem_addr)
    (hcl : ∀ j, j < 4 → (s.l1cache.line i j).dirty = false) :
    ((lookup s a).hit_flag = false ∧ (lookup s a).empty_flag = false
        ∧ (lookup s a).line_num = 0)
      ∧ (s.l1cache.line i 0).lru = 3
      ∧ (main_step s a).write_backs = s.write_backs
      ∧ (main_step s a).clock_cycles = add64 (add64 s.clock_cycles 1) 50 := by
  subst hi
  have hc := lookup_full_miss s a (fun j hj => (hF.1 j hj).1)
    (fun j hj => by rw [(hF.1 j hj).2.1]; exact hne j hj)
  have hn4 : (lookup s a).line_num < 4 := hc.2.2.2.1
  have hn : (lookup s a).line_num = 0 := by
    rcases hc.2.2.2.2.2 with ⟨h0, -⟩ | ⟨h3, -⟩
    · exact h0
    · rw [(hF.1 _ hn4).2.2] at h3
      omega
  have hh : ¬ (lookup s a).hit_flag = true := by rw [hc.1]; decide
  have hd : ¬ (s.l1cache.line (temp_index a.mem_addr) (lookup s a).line_num).dirty = true := by
    rw [hcl _ hn4]; decide
  refine ⟨⟨hc.1, hc.2.1, hn⟩, (hF.1 0 (by omega)).2.2, ?_, ?_⟩
  · rw [main_step_write_backs, if_neg hh, if_neg hd]
  · rw [main_step_clock_cycles, if_neg hh, if_neg hd]

/-- C9 as the claim states it fails on five writes to set 0 with tags 0, 1, 2, 3, 4: the
conjunction "accesses 1..4 are misses into empty slots filling lines 0..3, each line dirty
after its write; access 5 is a miss with eviction selecting line 0 whose rank was 3, the
evicted line dirty; `write_backs = 1`; `clock_cycles = 305`" does not hold. -/
theorem five_writes_claim_fails :
    ¬ ((((lookup init ⟨'w', 0x0⟩).hit_flag = false
          ∧ (lookup init ⟨'w', 0x0⟩).empty_flag = true
          ∧ (lookup init ⟨'w', 0x0⟩).line_num = 0)
        ∧ ((run init [⟨'w', 0x0⟩]).l1cache.line 0 0).dirty = true)
      ∧ (((lookup (run init [⟨'w', 0x0⟩]) ⟨'w', 0x8000⟩).hit_flag = false
          ∧ (lookup (run init [⟨'w', 0x0⟩]) ⟨'w', 0x8000⟩).empty_flag = true
          ∧ (lookup (run init [⟨'w', 0x0⟩]) ⟨'w', 0x8000⟩).line_num = 1)
        ∧ ((run init [⟨'w', 0x0⟩, ⟨'w', 0x8000⟩]).l1cache.line 0 1).dirty = true)
      ∧ (((lookup (run init [⟨'w', 0x0⟩, ⟨'w', 0x8000⟩]) ⟨'w', 0x10000⟩).hit_flag = false
          ∧ (lookup (run init [⟨'w', 0x0⟩, ⟨'w', 0x8000⟩]) ⟨'w', 0x10000⟩).empty_flag = true
          ∧ (lookup (run init [⟨'w', 0x0⟩, ⟨'w', 0x8000⟩]) ⟨'w', 0x10000⟩).line_num = 2)
        ∧ ((run init [⟨'w', 0x0⟩, ⟨'w', 0x8000⟩, ⟨'w', 0x10000⟩]).l1cache.line 0 2).dirty
            = true)
      ∧ (((lookup (run init [⟨'w', 0x0⟩, ⟨'w', 0x8000⟩, ⟨'w', 0x10000⟩])
              ⟨'w', 0x18000⟩).hit_flag = false
          ∧ (lookup (run init [⟨'w', 0x0⟩, ⟨'w', 0x8000⟩, ⟨'w', 0x10000⟩])
              ⟨'w', 0x18000⟩).empty_flag = true
          ∧ (lookup (run init [⟨'w', 0x0⟩, ⟨'w', 0x8000⟩, ⟨'w', 0x10000⟩])
              ⟨'w', 0x18000⟩).line_num = 3)
        ∧ ((run init [⟨'w', 0x0⟩, ⟨'w', 0x8000⟩, ⟨'w', 0x10000⟩,
              ⟨'w', 0x18000⟩]).l1cache.line 0 3).dirty = true)
      ∧ ((lookup (run init [⟨'w', 0x0⟩, ⟨'w', 0x8000⟩, ⟨'w', 0x10000⟩, ⟨'w', 0x18000⟩])
              ⟨'w', 0x20000⟩).hit_flag = false
          ∧ (lookup (run init [⟨'w', 0x0⟩, ⟨'w', 0x8000⟩, ⟨'w', 0x10000⟩, ⟨'w', 0x18000⟩])
              ⟨'w', 0x20000⟩).empty_flag = false
          ∧ (lookup (run init [⟨'w', 0x0⟩, ⟨'w', 0x8000⟩, ⟨'w', 0x10000⟩, ⟨'w', 0x18000⟩])
              ⟨'w', 0x20000⟩).line_num = 0
          ∧ ((run init [⟨'w', 0x0⟩, ⟨'w', 0x8000⟩, ⟨'w', 0x10000⟩,
                ⟨'w', 0x18000⟩]).l1cache.line 0 0).lru = 3
          ∧ ((run init [⟨'w', 0x0⟩, ⟨'w', 0x8000⟩, ⟨'w', 0x10000⟩,
                ⟨'w', 0x18000⟩]).l1cache.line 0 0).dirty = true)
      ∧ (run init [⟨'w', 0x0⟩, ⟨'w', 0x8000⟩, ⟨'w', 0x10000⟩, ⟨'w', 0x18000⟩,
            ⟨'w', 0x20000⟩]).write_backs = 1
      ∧ (run init [⟨'w', 0x0⟩, ⟨'w', 0x8000⟩, ⟨'w', 0x10000⟩, ⟨'w', 0x18000⟩,
            ⟨'w', 0x20000⟩]).clock_cycles = 5 * 1 + 5 * 50 + 50) := by
  decide

/-- C9 as amended. From the empty cache, five consecutive writes with the same index `i`
and five pairwise distinct tags: accesses 1..4 are misses into empty slots filling lines
0..3, each line being clean (`dirty = false`) after its write; access 5 is a miss with
eviction selecting line 0, whose rank was 3 and which is clean; so `write_backs = 0` and
the total is `5*1 + 5*50 = 255` cycles. -/
theorem five_writes_example (i : Nat) (a0 a1 a2 a3 a4 : Access)
    (_hw : ∀ a ∈ [a0, a1, a2, a3, a4], a.arg0 = 'w' ∨ a.arg0 = 'W')
    (hi : ∀ a ∈ [a0, a1, a2, a3, a4], temp_index a.mem_addr = i)
    (hd : [temp_tag a0.mem_addr, temp_tag a1.mem_addr, temp_tag a2.mem_addr,
      temp_tag a3.mem_addr, temp_tag a4.mem_addr].Nodup) :
    (((lookup init a0).hit_flag = false ∧ (lookup init a0).empty_flag = true
          ∧ (lookup init a0).line_num = 0)
        ∧ ((run init [a0]).l1cache.line i 0).dirty = false)
      ∧ (((lookup (run init [a0]) a1).hit_flag = false
          ∧ (lookup (run init [a0]) a1).empty_flag = true
          ∧ (lookup (run init [a0]) a1).line_num = 1)
        ∧ ((run init [a0, a1]).l1cache.line i 1).dirty = false)
      ∧ (((lookup (run init [a0, a1]) a2).hit_flag = false
          ∧ (lookup (run init [a0, a1]) a2).empty_flag = true
          ∧ (lookup (run init [a0, a1]) a2).line_num = 2)
        ∧ ((run init [a0, a1, a2]).l1cache.line i 2).dirty = false)
      ∧ (((lookup (run init [a0, a1, a2]) a3).hit_flag = false
          ∧ (lookup (run init [a0, a1, a2]) a3).empty_flag = true
          ∧ (lookup (run init [a0, a1, a2]) a3).line_num = 3)
        ∧ ((run init [a0, a1, a2, a3]).l1cache.line i 3).dirty = false)
      ∧ ((lookup (run init [a0, a1, a2, a3]) a4).hit_flag = false
          ∧ (lookup (run init [a0, a1, a2, a3]) a4).empty_flag = false
          ∧ (lookup (run init [a0, a1, a2, a3]) a4).line_num = 0
          ∧ ((run init [a0, a1, a2, a3]).l1cache.line i 0).lru = 3
          ∧ ((run init [a0, a1, a2, a3]).l1cache.line i 0).dirty = false)
      ∧ (run init [a0, a1, a2, a3, a4]).write_backs = 0
      ∧ (run init [a0, a1, a2, a3, a4]).clock_cycles = 5 * 1 + 5 * 50 := by
  have i0 := hi a0 (by simp)
  have i1 := hi a1 (by simp)
  have i2 := hi a2 (by simp)
  have i3 := hi a3 (by simp)
  have i4 := hi a4 (by simp)
  simp only [List.nodup_cons, List.mem_cons, List.mem_singleton, not_or, List.not_mem_nil,
    not_false_eq_true, List.nodup_nil, and_true] at hd
  obtain ⟨⟨d01, d02, d03, d04⟩, ⟨d12, d13, d14⟩, ⟨d23, d24⟩, d34⟩ := hd
  have hF0 : Filled init.l1cache i 0
      (fun j => if j = 0 then temp_tag a0.mem_addr else if j = 1 then temp_tag a1.mem_addr
        else if j = 2 then temp_tag a2.mem_addr else temp_tag a3.mem_addr) :=
    ⟨fun j hj => absurd hj (by omega), fun j _ _ => rfl⟩
  have hcl0 : ∀ j, j < 4 → (init.l1cache.line i j).dirty = false := fun _ _ => rfl
  obtain ⟨r0, hF1, hcl1, w1, c1⟩ := fill_step_clean init a0 i 0 _ hF0 (by omega) i0 rfl
    (fun j hj => absurd hj (by omega)) hcl0
  obtain ⟨r1, hF2, hcl2, w2, c2⟩ := fill_step_clean (main_step init a0) a1 i 1 _ hF1
    (by omega) i1 rfl (by
      intro j hj
      have : j = 0 := by omega
      subst this
      exact d01) hcl1
  obtain ⟨r2, hF3, hcl3, w3, c3⟩ := fill_step_clean (main_step (main_step init a0) a1) a2 i 2 _
    hF2 (by omega) i2 rfl (by
      intro j hj
      have : j = 0 ∨ j = 1 := by omega
      rcases this with rfl | rfl
      · exact d02
      · exact d12) hcl2
  obtain ⟨r3, hF4, hcl4, w4, c4⟩ :=
    fill_step_clean (main_step (main_step (main_step init a0) a1) a2) a3 i 3 _
    hF3 (by omega) i3 rfl (by
      intro j hj
      have : j = 0 ∨ j = 1 ∨ j = 2 := by omega
      rcases this with rfl | rfl | rfl
      · exact d03
      · exact d13
      · exact d23) hcl3
  obtain ⟨r4, l4, w5, c5⟩ :=
    evict_step_clean (main_step (main_step (main_step (main_step init a0) a1) a2) a3) a4 i _
    hF4 i4 (by
      intro j hj
      have : j = 0 ∨ j = 1 ∨ j = 2 ∨ j = 3 := by omega
      rcases this with rfl | rfl | rfl | rfl
      · exact d04
      · exact d14
      · exact d24
      · exact d34) hcl4
  refine ⟨⟨r0, hcl1 0 (by omega)⟩, ⟨r1, hcl2 1 (by omega)⟩, ⟨r2, hcl3 2 (by omega)⟩,
    ⟨r3, hcl4 3 (by omega)⟩, ⟨r4.1, r4.2.1, r4.2.2, l4, hcl4 0 (by omega)⟩, ?_, ?_⟩
  · show (main_step (main_step (main_step (main_step (main_step init a0) a1) a2) a3)
      a4).write_backs = 0
    rw [w5, w4, w3, w2, w1]
    rfl
  · show (main_step (main_step (main_step (main_step (main_step init a0) a1) a2) a3)
      a4).clock_cycles = 5 * 1 + 5 * 50
    rw [c5, c4, c3, c2, c1]
    decide

/-- C9 as amended, on five writes to set 0 with tags 0, 1, 2, 3, 4. -/
theorem five_writes_example_witness :
    (lookup (run init [⟨'w', 0x0⟩, ⟨'w', 0x8000⟩, ⟨'w', 0x10000⟩, ⟨'w', 0x18000⟩])
        ⟨'w', 0x20000⟩).line_num = 0
      ∧ (run init [⟨'w', 0x0⟩, ⟨'w', 0x8000⟩, ⟨'w', 0x10000⟩, ⟨'w', 0x18000⟩,
            ⟨'w', 0x20000⟩]).write_backs = 0
      ∧ (run init [⟨'w', 0x0⟩, ⟨'w', 0x8000⟩, ⟨'w', 0x10000⟩, ⟨'w', 0x18000⟩,
            ⟨'w', 0x20000⟩]).clock_cycles = 255 :=
  have h := five_writes_example 0 ⟨'w', 0x0⟩ ⟨'w', 0x8000⟩ ⟨'w', 0x10000⟩ ⟨'w', 0x18000⟩
    ⟨'w', 0x20000⟩ (by decide) (by decide) (by decide)
  ⟨h.2.2.2.2.1.2.2.1, h.2.2.2.2.2.1, h.2.2.2.2.2.2⟩

/-! ## The general theorems on a sample trace -/

/-- C1 on `sample_trace`, set 0: lines 0 and 1 have different ranks, and rank 3 is taken. -/
theorem rank_uniqueness_witness :
    ((run init sample_trace).l1cache.line 0 0).lru
        ≠ ((run init sample_trace).l1cache.line 0 1).lru
      ∧ ∃ j, j < NO_OF_LINES ∧ ((run init sample_trace).l1cache.line 0 j).valid = true
          ∧ ((run init sample_trace).l1cache.line 0 j).lru = 3 :=
  ⟨(rank_uniqueness sample_trace 0).1 0 1 (by decide) (by decide) (by decide) (by decide)
      (by decide),
   ((rank_uniqueness sample_trace 0).2 3).mp (by decide)⟩

/-- C3 on `sample_trace`, set 0, lines 0 and 1. -/
theorem recency_order_witness :
    ∃ px py, last_access sample_trace 0 0 = some px ∧ last_access sample_trace 0 1 = some py
      ∧ (((run init sample_trace).l1cache.line 0 0).lru
            < ((run init sample_trace).l1cache.line 0 1).lru ↔ py < px) :=
  (recency_order sample_trace 0).1 0 1 (by decide) (by decide) (by decide) (by decide)
    (by decide)

/-- C6 on `sample_trace`: a write hit on the clean line 3 (tag 6), and the read miss
that evicts the dirty line 0. -/
theorem dirty_write_back_witness :
    (((main_step (run init sample_trace) ⟨'w', 0x30000⟩).l1cache.line
          (temp_index 0x30000) (lookup (run init sample_trace) ⟨'w', 0x30000⟩).line_num).dirty
        = true
      ∧ (main_step (run init sample_trace) ⟨'w', 0x30000⟩).write_backs
          = (run init sample_trace).write_backs
      ∧ (main_step (run init sample_trace) ⟨'w', 0x30000⟩).clock_cycles
          = ((run init sample_trace).clock_cycles + 1) % 2 ^ 64)
    ∧ ((main_step (run init sample_trace) ⟨'r', 0x38000⟩).write_backs
          = ((run init sample_trace).write_backs + 1) % 2 ^ 64
      ∧ (main_step (run init sample_trace) ⟨'r', 0x38000⟩).clock_cycles
          = ((run init sample_trace).clock_cycles + 1 + (50 + 50)) % 2 ^ 64) :=
  ⟨(dirty_write_back (run init sample_trace) ⟨'w', 0x30000⟩).1 (by decide) (by decide),
   (dirty_write_back (run init sample_trace) ⟨'r', 0x38000⟩).2.1 (by decide) (by decide)⟩

/-- C8 on the initial cache: after a write miss the selected line is clean. -/
theorem write_miss_dirty_policy_witness :
    ((main_step init ⟨'w', 0x0⟩).l1cache.line (temp_index 0x0)
        (lookup init ⟨'w', 0x0⟩).line_num).dirty = false :=
  (write_miss_dirty_policy init ⟨'w', 0x0⟩).1 (by decide)

/-! ## Filling discipline (C14) and frame (C16) -/

/-- The `valid` bit of any line after one access. -/
theorem main_step_valid (s : State) (a : Access) (i j : Nat) :
    ((main_step s a).l1cache.line i j).valid
      = if i = temp_index a.mem_addr ∧ j = (lookup s a).line_num
            ∧ (lookup s a).empty_flag = true then true
        else (s.l1cache.line i j).valid := by
  by_cases hi : i = temp_index a.mem_addr
  · subst hi
    rcases lookup_cases s a with hc | hc | hc
    · rw [hit_valid s a hc, hc.2.1, if_neg (by simp)]
    · rw [fill_valid s a hc, hc.2.1]
      by_cases hj : j = (lookup s a).line_num
      · rw [if_pos hj, if_pos ⟨rfl, hj, rfl⟩]
      · rw [if_neg hj, if_neg (fun h => hj h.2.1)]
    · rw [evict_valid s a hc, hc.2.1, if_neg (by simp)]
  · rw [step_line_other s a i j hi, if_neg (fun h => hi h.1)]

/-- The `tag` of any line after one access. -/
theorem main_step_tag (s : State) (a : Access) (i j : Nat) :
    ((main_step s a).l1cache.line i j).tag
      = if i = temp_index a.mem_addr ∧ j = (lookup s a).line_num
            ∧ (lookup s a).hit_flag = false then temp_tag a.mem_addr
        else (s.l1cache.line i j).tag := by
  by_cases hi : i = temp_index a.mem_addr
  · subst hi
    rcases lookup_cases s a with hc | hc | hc
    · rw [hit_tag s a hc, hc.1, if_neg (by simp)]
    · rw [fill_tag s a hc, hc.1, temp_tag_mod]
      by_cases hj : j = (lookup s a).line_num
      · rw [if_pos hj, if_pos ⟨rfl, hj, rfl⟩]
      · rw [if_neg hj, if_neg (fun h => hj h.2.1)]
    · rw [evict_tag s a hc, hc.1, temp_tag_mod]
      by_cases hj : j = (lookup s a).line_num
      · rw [if_pos hj, if_pos ⟨rfl, hj, rfl⟩]
      · rw [if_neg hj, if_neg (fun h => hj h.2.1)]
  · rw [step_line_other s a i j hi, if_neg (fun h => hi h.1)]

/-- C16. Frame of an access, in every state: with `n` the line selected for the access,
every line of every other set is unchanged; the `tag`, `valid` and `dirty` fields of every
line of the accessed set other than line `n` are unchanged; and on a hit the `tag` and
`valid` fields of line `n` are unchanged as well. -/
theorem access_frame (s : State) (a : Access) :
    (∀ i j, i ≠ temp_index a.mem_addr →
        (main_step s a).l1cache.line i j = s.l1cache.line i j)
    ∧ (∀ j, j ≠ (lookup s a).line_num →
        ((main_step s a).l1cache.line (temp_index a.mem_addr) j).tag
            = (s.l1cache.line (temp_index a.mem_addr) j).tag
          ∧ ((main_step s a).l1cache.line (temp_index a.mem_addr) j).valid
            = (s.l1cache.line (temp_index a.mem_addr) j).valid
          ∧ ((main_step s a).l1cache.line (temp_index a.mem_addr) j).dirty
            = (s.l1cache.line (temp_index a.mem_addr) j).dirty)
    ∧ ((lookup s a).hit_flag = true →
        ((main_step s a).l1cache.line (temp_index a.mem_addr) (lookup s a).line_num).tag
            = (s.l1cache.line (temp_index a.mem_addr) (lookup s a).line_num).tag
          ∧ ((main_step s a).l1cache.line (temp_index a.mem_addr) (lookup s a).line_num).valid
            = (s.l1cache.line (temp_index a.mem_addr) (lookup s a).line_num).valid) := by
  refine ⟨fun i j hi => step_line_other s a i j hi, ?_, ?_⟩
  · intro j hj
    refine ⟨?_, ?_, ?_⟩
    · rw [main_step_tag, if_neg (fun h => hj h.2.1)]
    · rw [main_step_valid, if_neg (fun h => hj h.2.1)]
    · rw [main_step_dirty, if_neg (fun h => hj h.2)]
  · intro hh
    refine ⟨?_, ?_⟩
    · rw [main_step_tag, if_neg (fun h => by rw [hh] at h; exact absurd h.2.2 (by decide))]
    · have he : (lookup s a).empty_flag = false := by
        rcases lookup_cases s a with hc | hc | hc
        · exact hc.2.1
        · rw [hc.1] at hh; exact absurd hh (by decide)
        · exact hc.2.1
      rw [main_step_valid, if_neg (fun h => by rw [he] at h; exact absurd h.2.2 (by decide))]

/-- C16 on `sample_trace` followed by a read that evicts line 0 of set 0: set 1 is
untouched and line 1 of set 0 keeps its tag. -/
theorem access_frame_witness :
    (main_step (run init sample_trace) ⟨'r', 0x38000⟩).l1cache.line 1 0
        = (run init sample_trace).l1cache.line 1 0
      ∧ ((main_step (run init sample_trace) ⟨'r', 0x38000⟩).l1cache.line
            (temp_index 0x38000) 1).tag
          = ((run init sample_trace).l1cache.line (temp_index 0x38000) 1).tag :=
  ⟨(access_frame (run init sample_trace) ⟨'r', 0x38000⟩).1 1 0 (by decide),
   ((access_frame (run init sample_trace) ⟨'r', 0x38000⟩).2.1 1 (by decide)).1⟩

/-- C14. Set-filling discipline: in every reachable state the valid lines of each set are
exactly lines `0..k-1` for some `k ≤ 4`, so no invalid line has a lower number than a valid
one; hence a miss into an empty slot fills the lowest-numbered invalid line, the lines
numbered below the filled slot (those that the empty-slot branch of `set_lru` increments)
are exactly the previously valid lines of the set, each of them has its `lru` increased by
one, and the other lines above the filled slot keep theirs. -/
theorem filling_discipline (tr : List Access) :
    (∀ i, ∃ k, k ≤ NO_OF_LINES ∧ ∀ j, j < NO_OF_LINES →
        (((run init tr).l1cache.line i j).valid = true ↔ j < k))
    ∧ (∀ i x y, x < y → y < NO_OF_LINES → ((run init tr).l1cache.line i y).valid = true →
        ((run init tr).l1cache.line i x).valid = true)
    ∧ (∀ a : Access, (lookup (run init tr) a).empty_flag = true →
        (lookup (run init tr) a).line_num < NO_OF_LINES
          ∧ ((run init tr).l1cache.line (temp_index a.mem_addr)
                (lookup (run init tr) a).line_num).valid = false
          ∧ (∀ j, j < NO_OF_LINES →
              (j < (lookup (run init tr) a).line_num
                ↔ ((run init tr).l1cache.line (temp_index a.mem_addr) j).valid = true))
          ∧ (∀ j, j < NO_OF_LINES →
              ((run init tr).l1cache.line (temp_index a.mem_addr) j).valid = true →
              ((main_step (run init tr) a).l1cache.line (temp_index a.mem_addr) j).lru
                = ((run init tr).l1cache.line (temp_index a.mem_addr) j).lru + 1)
          ∧ (∀ j, j < NO_OF_LINES → (lookup (run init tr) a).line_num < j →
              ((main_step (run init tr) a).l1cache.line (temp_index a.mem_addr) j).lru
                = ((run init tr).l1cache.line (temp_index a.mem_addr) j).lru)) := by
  unfold NO_OF_LINES
  refine ⟨?_, ?_, ?_⟩
  · intro i
    obtain ⟨k, hk, hv, -, -⟩ := SetInv_reachable tr i
    exact ⟨k, hk, hv⟩
  · intro i x y hxy hy hvy
    obtain ⟨k, hk, hv, -, -⟩ := SetInv_reachable tr i
    have := (hv y hy).mp hvy
    exact (hv x (by omega)).mpr (by omega)
  · intro a he
    obtain ⟨k, hk, hv, hb, -⟩ := SetInv_reachable tr (temp_index a.mem_addr)
    have hc : IsFill (run init tr).l1cache (temp_tag a.mem_addr) (temp_index a.mem_addr)
        (lookup (run init tr) a) := by
      rcases lookup_cases (run init tr) a with hc | hc | hc
      · rw [hc.2.1] at he; exact absurd he (by decide)
      · exact hc
      · rw [hc.2.1] at he; exact absurd he (by decide)
    have hl := fill_lru _ a hc
    obtain ⟨-, -, -, hn4, hnv, hmm⟩ := hc
    have hnk : ¬ (lookup (run init tr) a).line_num < k := by
      intro h1
      have := (hv _ hn4).mpr h1
      rw [hnv] at this
      exact Bool.false_ne_true this
    have hkn : ¬ k < (lookup (run init tr) a).line_num := by
      intro h1
      have h2 := (hmm k (Nat.zero_le _) h1).1
      have h3 := (hv k (by omega)).mp h2
      omega
    refine ⟨hn4, hnv, ?_, ?_, ?_⟩
    · intro j hj
      rw [hv j hj]
      omega
    · intro j hj hvj
      have hjk := (hv j hj).mp hvj
      have hjb := hb j hjk
      rw [hl j, if_neg (by omega), if_pos (by omega)]
      omega
    · intro j hj hnj
      rw [hl j, if_neg (by omega), if_neg (by omega)]

/-- C14 on the initial cache after one access to set 0: a second tag fills line 1, the
lowest invalid line, and the rank of line 0 goes from 0 to 1. -/
theorem filling_discipline_witness :
    (lookup (run init [⟨'r', 0x0⟩]) ⟨'r', 0x8000⟩).line_num < NO_OF_LINES
      ∧ ((run init [⟨'r', 0x0⟩]).l1cache.line (temp_index 0x8000)
            (lookup (run init [⟨'r', 0x0⟩]) ⟨'r', 0x8000⟩).line_num).valid = false
      ∧ ((main_step (run init [⟨'r', 0x0⟩]) ⟨'r', 0x8000⟩).l1cache.line
            (temp_index 0x8000) 0).lru
          = ((run init [⟨'r', 0x0⟩]).l1cache.line (temp_index 0x8000) 0).lru + 1 :=
  have h := (filling_discipline [⟨'r', 0x0⟩]).2.2 ⟨'r', 0x8000⟩ (by decide)
  ⟨h.1, h.2.1, h.2.2.2.1 0 (by decide) (by decide)⟩

/-- C12. Hit rank update: in every reachable state, after a hit on line `h` whose `lru`
was `r`, line `h` has `lru` 0, every other valid line of the set whose `lru` was below `r`
has its `lru` increased by exactly 1 (staying at most 3), and every other valid line whose
`lru` was above `r` keeps its `lru`. -/
theorem hit_rank_update (tr : List Access) (a : Access)
    (hh : (lookup (run init tr) a).hit_flag = true) :
    ((main_step (run init tr) a).l1cache.line (temp_index a.mem_addr)
        (lookup (run init tr) a).line_num).lru = 0
    ∧ (∀ j, j < NO_OF_LINES → j ≠ (lookup (run init tr) a).line_num →
        ((run init tr).l1cache.line (temp_index a.mem_addr) j).valid = true →
        (((run init tr).l1cache.line (temp_index a.mem_addr) j).lru
            < ((run init tr).l1cache.line (temp_index a.mem_addr)
                (lookup (run init tr) a).line_num).lru →
          ((main_step (run init tr) a).l1cache.line (temp_index a.mem_addr) j).lru
              = ((run init tr).l1cache.line (temp_index a.mem_addr) j).lru + 1
            ∧ ((main_step (run init tr) a).l1cache.line (temp_index a.mem_addr) j).lru ≤ 3)
        ∧ (((run init tr).l1cache.line (temp_index a.mem_addr)
                (lookup (run init tr) a).line_num).lru
            < ((run init tr).l1cache.line (temp_index a.mem_addr) j).lru →
          ((main_step (run init tr) a).l1cache.line (temp_index a.mem_addr) j).lru
              = ((run init tr).l1cache.line (temp_index a.mem_addr) j).lru)) := by
  unfold NO_OF_LINES
  have hc : IsHit (run init tr).l1cache (temp_tag a.mem_addr) (temp_index a.mem_addr)
      (lookup (run init tr) a) := by
    rcases lookup_cases (run init tr) a with hc | hc | hc
    · exact hc
    · rw [hc.1] at hh; exact absurd hh (by decide)
    · rw [hc.1] at hh; exact absurd hh (by decide)
  have hl := hit_lru _ a hc
  obtain ⟨k, hk, hv, hb, -⟩ := SetInv_reachable tr (temp_index a.mem_addr)
  obtain ⟨-, -, -, hn4, hnv, -, -⟩ := hc
  have hnb := hb _ ((hv _ hn4).mp hnv)
  refine ⟨by rw [hl, if_pos rfl], ?_⟩
  intro j hj hjn hvj
  have hjb := hb j ((hv j hj).mp hvj)
  rw [hl j, if_neg hjn]
  constructor
  · intro hlt
    rw [if_pos ⟨hj, hlt⟩]
    omega
  · intro hgt
    rw [if_neg (by omega)]

/-- C12 on `sample_trace` followed by a read hit on line 1 (rank 2): line 2 (rank 1) moves
to rank 2. -/
theorem hit_rank_update_witness :
    ((main_step (run init sample_trace) ⟨'r', 0x20000⟩).l1cache.line (temp_index 0x20000)
        (lookup (run init sample_trace) ⟨'r', 0x20000⟩).line_num).lru = 0
      ∧ ((main_step (run init sample_trace) ⟨'r', 0x20000⟩).l1cache.line
            (temp_index 0x20000) 2).lru
          = ((run init sample_trace).l1cache.line (temp_index 0x20000) 2).lru + 1 :=
  have h := hit_rank_update sample_trace ⟨'r', 0x20000⟩ (by decide)
  ⟨h.1, ((h.2 2 (by decide) (by decide) (by decide)).1 (by decide)).1⟩

/-! ## Eviction rank update against the explicit-reset protocol (C13) -/

theorem lookup_evict_of_flags (s : State) (a : Access)
    (hh : (lookup s a).hit_flag = false) (he : (lookup s a).empty_flag = false) :
    IsEvict s.l1cache (temp_tag a.mem_addr) (temp_index a.mem_addr) (lookup s a) := by
  rcases lookup_cases s a with hc | hc | hc
  · rw [hc.1] at hh; exact absurd hh (by decide)
  · rw [hc.2.1] at he; exact absurd he (by decide)
  · exact hc

/-- C13. Eviction rank update agrees with the explicit-reset protocol: in every reachable
state, for a miss with eviction selecting line `v`, `set_lru` (which increments every 2-bit
`lru` of the set modulo 4 and resets nothing) yields the same cache as the spec's protocol
(increment every rank modulo 4, then set the rank of line `v` to 0); and the ranks in the
state after the access are those of the spec's protocol. -/
theorem evict_update_refines_spec (tr : List Access) (a : Access)
    (hh : (lookup (run init tr) a).hit_flag = false)
    (he : (lookup (run init tr) a).empty_flag = false) :
    set_lru (run init tr).l1cache (lookup (run init tr) a).line_num (temp_index a.mem_addr)
        false false
      = spec_evict_recency (run init tr).l1cache (lookup (run init tr) a).line_num
          (temp_index a.mem_addr)
    ∧ ∀ i j, ((main_step (run init tr) a).l1cache.line i j).lru
        = ((spec_evict_recency (run init tr).l1cache (lookup (run init tr) a).line_num
            (temp_index a.mem_addr)).line i j).lru := by
  have hc := lookup_evict_of_flags _ a hh he
  obtain ⟨h3, -, -, -⟩ :=
    evict_rank3 _ _ _ _ (SetInv_reachable tr (temp_index a.mem_addr)) hc
  have hspec : ∀ i j,
      (spec_evict_recency (run init tr).l1cache (lookup (run init tr) a).line_num
          (temp_index a.mem_addr)).line i j
        = if i = temp_index a.mem_addr ∧ j < 4 then
            { (run init tr).l1cache.line i j with
              lru := (((run init tr).l1cache.line i j).lru + 1) % 4 }
          else (run init tr).l1cache.line i j := by
    intro i j
    show (if i = temp_index a.mem_addr ∧ j < NO_OF_LINES then _ else _) = _
    unfold NO_OF_LINES
    by_cases hij : i = temp_index a.mem_addr ∧ j < 4
    · rw [if_pos hij, if_pos hij]
      by_cases hjn : j = (lookup (run init tr) a).line_num
      · rw [if_pos hjn, hij.1, hjn, h3]
      · rw [if_neg hjn]
    · rw [if_neg hij, if_neg hij]
  constructor
  · apply Cache.ext_line
    intro i j
    rw [set_lru_line_evict, hspec]
  · intro i j
    rw [hspec]
    by_cases hi : i = temp_index a.mem_addr
    · subst hi
      rw [evict_lru _ a hc]
      by_cases hj : j < 4
      · rw [if_pos hj, if_pos ⟨rfl, hj⟩]
      · rw [if_neg hj, if_neg (fun h => hj h.2)]
    · rw [step_line_other _ a i j hi, if_neg (fun h => hi h.1)]

/-- C13 on `sample_trace` followed by a read that evicts line 0 of set 0. -/
theorem evict_update_refines_spec_witness :
    set_lru (run init sample_trace).l1cache
        (lookup (run init sample_trace) ⟨'r', 0x38000⟩).line_num (temp_index 0x38000)
        false false
      = spec_evict_recency (run init sample_trace).l1cache
          (lookup (run init sample_trace) ⟨'r', 0x38000⟩).line_num (temp_index 0x38000) :=
  (evict_update_refines_spec sample_trace ⟨'r', 0x38000⟩ (by decide) (by decide)).1

/-! ## No duplicate residency (C17) and lookup correctness (C11) -/

theorem NoDupTags_init (i : Nat) : NoDupTags init.l1cache i := by
  intro x y _ _ hv
  exact absurd hv (by simp [init])

theorem NoDupTags_step (s : State) (a : Access) (i : Nat) (hinv : SetInv s.l1cache i)
    (h : NoDupTags s.l1cache i) : NoDupTags (main_step s a).l1cache i := by
  by_cases hi : i = temp_index a.mem_addr
  · subst hi
    intro x y hx hy
    rw [main_step_valid, main_step_valid, main_step_tag, main_step_tag]
    rcases lookup_cases s a with hc | hc | hc
    · rw [hc.1, hc.2.1]
      rw [if_neg (by simp), if_neg (by simp), if_neg (by simp), if_neg (by simp)]
      exact h x y hx hy
    · obtain ⟨k, hk, hv, -, -⟩ := hinv
      obtain ⟨e1, e2, -, hn4, hnv, hmm⟩ := hc
      rw [e1, e2]
      have hlow : ∀ j, j < 4 → (s.l1cache.line (temp_index a.mem_addr) j).valid = true →
          j < (lookup s a).line_num
            ∧ (s.l1cache.line (temp_index a.mem_addr) j).tag ≠ temp_tag a.mem_addr := by
        intro j hj hvj
        have hjk := (hv j hj).mp hvj
        have hnk : ¬ (lookup s a).line_num < k := by
          intro h1
          have := (hv _ hn4).mpr h1
          rw [hnv] at this
          exact Bool.false_ne_true this
        have hjn : j < (lookup s a).line_num := by omega
        exact ⟨hjn, (hmm j (Nat.zero_le _) hjn).2⟩
      by_cases hxn : x = (lookup s a).line_num <;> by_cases hyn : y = (lookup s a).line_num
      · intro _ _ _; omega
      · rw [if_pos ⟨rfl, hxn, rfl⟩, if_neg (fun h => hyn h.2.1), if_pos ⟨rfl, hxn, rfl⟩,
          if_neg (fun h => hyn h.2.1)]
        intro _ hvy ht
        exact absurd ht.symm (hlow y hy hvy).2
      · rw [if_neg (fun h => hxn h.2.1), if_pos ⟨rfl, hyn, rfl⟩, if_neg (fun h => hxn h.2.1),
          if_pos ⟨rfl, hyn, rfl⟩]
        intro hvx _ ht
        exact absurd ht (hlow x hx hvx).2
      · rw [if_neg (fun h => hxn h.2.1), if_neg (fun h => hyn h.2.1),
          if_neg (fun h => hxn h.2.1), if_neg (fun h => hyn h.2.1)]
        exact h x y hx hy
    · obtain ⟨e1, e2, -, hn4, hmm, -⟩ := hc
      rw [e1, e2]
      rw [if_neg (by simp), if_neg (by simp)]
      by_cases hxn : x = (lookup s a).line_num <;> by_cases hyn : y = (lookup s a).line_num
      · intro _ _ _; omega
      · rw [if_pos ⟨rfl, hxn, rfl⟩, if_neg (fun h => hyn h.2.1)]
        intro _ _ ht
        exact absurd ht.symm (hmm y (Nat.zero_le _) hy).2
      · rw [if_neg (fun h => hxn h.2.1), if_pos ⟨rfl, hyn, rfl⟩]
        intro _ _ ht
        exact absurd ht (hmm x (Nat.zero_le _) hx).2
      · rw [if_neg (fun h => hxn h.2.1), if_neg (fun h => hyn h.2.1)]
        exact h x y hx hy
  · intro x y hx hy
    rw [step_line_other s a i x hi, step_line_other s a i y hi]
    exact h x y hx hy

theorem NoDupTags_reachable (tr : List Access) (i : Nat) :
    NoDupTags (run init tr).l1cache i := by
  induction tr using List.reverseRecOn with
  | nil => exact NoDupTags_init i
  | append_singleton tr a ih =>
    rw [run_snoc]
    exact NoDupTags_step _ a i (SetInv_reachable tr i) ih

/-- C17. No duplicate residency: in every reachable state no two distinct valid lines of a
set hold the same tag, so a block (tag, index) is resident in at most one line. -/
theorem no_duplicate_residency (tr : List Access) (i : Nat) :
    ∀ x y, x < NO_OF_LINES → y < NO_OF_LINES → x ≠ y →
      ((run init tr).l1cache.line i x).valid = true →
      ((run init tr).l1cache.line i y).valid = true →
      ((run init tr).l1cache.line i x).tag ≠ ((run init tr).l1cache.line i y).tag := by
  intro x y hx hy hxy hvx hvy ht
  exact hxy (NoDupTags_reachable tr i x y hx hy hvx hvy ht)

/-- C17 on `sample_trace`, set 0, lines 0 and 1. -/
theorem no_duplicate_residency_witness :
    ((run init sample_trace).l1cache.line 0 0).tag
      ≠ ((run init sample_trace).l1cache.line 0 1).tag :=
  no_duplicate_residency sample_trace 0 0 1 (by decide) (by decide) (by decide) (by decide)
    (by decide)

/-- C11. Lookup correctness: in every reachable state, for every tag and index,
`check_cache` sets `hit_flag` exactly when some valid line of the set holds the tag; in that
case the returned line is valid, holds the tag and is the only such line; and a valid
mismatching line with `lru = 3` earlier in the scan does not override a hit on a later
line. -/
theorem lookup_correct (tr : List Access) (tag index : Nat) :
    ((check_cache (run init tr).l1cache tag index).hit_flag = true ↔
        ∃ j, j < NO_OF_LINES ∧ ((run init tr).l1cache.line index j).valid = true
          ∧ ((run init tr).l1cache.line index j).tag = tag)
    ∧ ((check_cache (run init tr).l1cache tag index).hit_flag = true →
        (check_cache (run init tr).l1cache tag index).line_num < NO_OF_LINES
          ∧ ((run init tr).l1cache.line index
                (check_cache (run init tr).l1cache tag index).line_num).valid = true
          ∧ ((run init tr).l1cache.line index
                (check_cache (run init tr).l1cache tag index).line_num).tag = tag
          ∧ ∀ j, j < NO_OF_LINES → ((run init tr).l1cache.line index j).valid = true →
              ((run init tr).l1cache.line index j).tag = tag →
              j = (check_cache (run init tr).l1cache tag index).line_num)
    ∧ (∀ x y, x < y → y < NO_OF_LINES →
        ((run init tr).l1cache.line index x).valid = true →
        ((run init tr).l1cache.line index x).tag ≠ tag →
        ((run init tr).l1cache.line index x).lru = 3 →
        ((run init tr).l1cache.line index y).valid = true →
        ((run init tr).l1cache.line index y).tag = tag →
        (check_cache (run init tr).l1cache tag index).hit_flag = true
          ∧ (check_cache (run init tr).l1cache tag index).line_num = y) := by
  unfold NO_OF_LINES
  obtain ⟨k, hk, hv, -, -⟩ := SetInv_reachable tr index
  have hnd := NoDupTags_reachable tr index
  -- a valid line holding the tag forces a hit on that very line
  have key : ∀ j, j < 4 → ((run init tr).l1cache.line index j).valid = true →
      ((run init tr).l1cache.line index j).tag = tag →
      (check_cache (run init tr).l1cache tag index).hit_flag = true
        ∧ (check_cache (run init tr).l1cache tag index).line_num = j := by
    intro j hj hvj htj
    rcases check_cache_cases (run init tr).l1cache tag index with hc | hc | hc
    · refine ⟨hc.1, ?_⟩
      obtain ⟨-, -, -, hn4, hnv, hnt, -⟩ := hc
      exact hnd _ j hn4 hj hnv hvj (by rw [hnt, htj])
    · exfalso
      obtain ⟨-, -, -, hn4, hnv, hmm⟩ := hc
      have hjk := (hv j hj).mp hvj
      have hnk : ¬ (check_cache (run init tr).l1cache tag index).line_num < k := by
        intro h1
        have := (hv _ hn4).mpr h1
        rw [hnv] at this
        exact Bool.false_ne_true this
      exact (hmm j (Nat.zero_le _) (by omega)).2 htj
    · exfalso
      exact (hc.2.2.2.2.1 j (Nat.zero_le _) hj).2 htj
  have hit : (check_cache (run init tr).l1cache tag index).hit_flag = true →
      (check_cache (run init tr).l1cache tag index).line_num < 4
        ∧ ((run init tr).l1cache.line index
              (check_cache (run init tr).l1cache tag index).line_num).valid = true
        ∧ ((run init tr).l1cache.line index
              (check_cache (run init tr).l1cache tag index).line_num).tag = tag := by
    intro hh
    rcases check_cache_cases (run init tr).l1cache tag index with hc | hc | hc
    · exact ⟨hc.2.2.2.1, hc.2.2.2.2.1, hc.2.2.2.2.2.1⟩
    · rw [hc.1] at hh; exact absurd hh (by decide)
    · rw [hc.1] at hh; exact absurd hh (by decide)
  refine ⟨⟨?_, ?_⟩, ?_, ?_⟩
  · intro hh
    exact ⟨_, hit hh⟩
  · rintro ⟨j, hj, hvj, htj⟩
    exact (key j hj hvj htj).1
  · intro hh
    obtain ⟨h1, h2, h3⟩ := hit hh
    exact ⟨h1, h2, h3, fun j hj hvj htj => (key j hj hvj htj).2.symm⟩
  · intro x y _ hy _ _ _ hvy hty
    exact key y hy hvy hty

/-- C11 on `sample_trace`, set 0: line 0 holds tag 0 with rank 3 and does not hold tag 6,
which is found on line 3. -/
theorem lookup_correct_witness :
    (check_cache (run init sample_trace).l1cache 6 0).hit_flag = true
      ∧ (check_cache (run init sample_trace).l1cache 6 0).line_num = 3 :=
  (lookup_correct sample_trace 6 0).2.2 0 3 (by decide) (by decide) (by decide) (by decide)
    (by decide) (by decide) (by decide)

/-! ## Invalid lines are clean (C15) -/

theorem InvalidClean_init : InvalidClean init.l1cache := fun _ _ _ => rfl

theorem InvalidClean_step (s : State) (a : Access) (h : InvalidClean s.l1cache) :
    InvalidClean (main_step s a).l1cache := by
  intro i j hv
  rw [main_step_valid] at hv
  rw [main_step_dirty]
  by_cases h1 : i = temp_index a.mem_addr ∧ j = (lookup s a).line_num
      ∧ (lookup s a).empty_flag = true
  · rw [if_pos h1] at hv
    exact absurd hv (by decide)
  · rw [if_neg h1] at hv
    by_cases h2 : i = temp_index a.mem_addr ∧ j = (lookup s a).line_num
    · rw [if_pos h2]
      by_cases h3 : (lookup s a).hit_flag = true
      · exfalso
        rcases lookup_cases s a with hc | hc | hc
        · have hvn := hc.2.2.2.2.1
          rw [← h2.1, ← h2.2, hv] at hvn
          exact absurd hvn (by decide)
        · rw [hc.1] at h3; exact absurd h3 (by decide)
        · rw [hc.1] at h3; exact absurd h3 (by decide)
      · rw [if_neg h3]
    · rw [if_neg h2]
      exact h i j hv

theorem InvalidClean_reachable (tr : List Access) : InvalidClean (run init tr).l1cache := by
  induction tr using List.reverseRecOn with
  | nil => exact InvalidClean_init
  | append_singleton tr a ih =>
    rw [run_snoc]
    exact InvalidClean_step _ a ih

/-- C15. A miss into an empty slot never writes back: in every reachable state every invalid
line is clean; so for an access that `check_cache` reports with `empty_flag` set, the dirty
bit tested by `main` is false, `write_backs` is unchanged, 51 cycles are added (1 baseline
and 50 fetch, in `uint_64` arithmetic), and afterwards the filled line is valid, holds the
tag of the access and is clean. -/
theorem empty_slot_no_write_back (tr : List Access) :
    (∀ i j, ((run init tr).l1cache.line i j).valid = false →
        ((run init tr).l1cache.line i j).dirty = false)
    ∧ (∀ a : Access, (lookup (run init tr) a).empty_flag = true →
        ((lookup (run init tr) a).l1cache.line (temp_index a.mem_addr)
            (lookup (run init tr) a).line_num).dirty = false
          ∧ (main_step (run init tr) a).write_backs = (run init tr).write_backs
          ∧ (main_step (run init tr) a).clock_cycles
              = ((run init tr).clock_cycles + 1 + 50) % 2 ^ 64
          ∧ ((main_step (run init tr) a).l1cache.line (temp_index a.mem_addr)
                (lookup (run init tr) a).line_num).valid = true
          ∧ ((main_step (run init tr) a).l1cache.line (temp_index a.mem_addr)
                (lookup (run init tr) a).line_num).tag = temp_tag a.mem_addr
          ∧ ((main_step (run init tr) a).l1cache.line (temp_index a.mem_addr)
                (lookup (run init tr) a).line_num).dirty = false) := by
  have hclean := InvalidClean_reachable tr
  refine ⟨hclean, ?_⟩
  intro a he
  have hc : IsFill (run init tr).l1cache (temp_tag a.mem_addr) (temp_index a.mem_addr)
      (lookup (run init tr) a) := by
    rcases lookup_cases (run init tr) a with hc | hc | hc
    · rw [hc.2.1] at he; exact absurd he (by decide)
    · exact hc
    · rw [hc.2.1] at he; exact absurd he (by decide)
  have hd : ((run init tr).l1cache.line (temp_index a.mem_addr)
      (lookup (run init tr) a).line_num).dirty = false := hclean _ _ hc.2.2.2.2.1
  have hh : ¬ (lookup (run init tr) a).hit_flag = true := by rw [hc.1]; decide
  have hd' : ¬ ((run init tr).l1cache.line (temp_index a.mem_addr)
      (lookup (run init tr) a).line_num).dirty = true := by rw [hd]; decide
  refine ⟨?_, ?_, ?_, ?_, ?_, ?_⟩
  · rw [lookup_dirty]
    exact hd
  · rw [main_step_write_backs, if_neg hh, if_neg hd']
  · rw [main_step_clock_cycles, if_neg hh, if_neg hd']
    unfold add64
    omega
  · rw [fill_valid _ a hc, if_pos rfl]
  · rw [fill_tag _ a hc, if_pos rfl, temp_tag_mod]
  · rw [fill_dirty _ a hc, if_pos rfl]

/-- C15 on `sample_trace` followed by a write to the empty set 1. -/
theorem empty_slot_no_write_back_witness :
    (main_step (run init sample_trace) ⟨'w', 0x20⟩).write_backs
        = (run init sample_trace).write_backs
      ∧ (main_step (run init sample_trace) ⟨'w', 0x20⟩).clock_cycles
        = ((run init sample_trace).clock_cycles + 1 + 50) % 2 ^ 64 :=
  have h := (empty_slot_no_write_back sample_trace).2 ⟨'w', 0x20⟩ (by decide)
  ⟨h.2.1, h.2.2.1⟩

/-! ## Cycle account (C19) -/

theorem AccountInv_init : AccountInv init 0 := by
  refine ⟨rfl, fun _ => ⟨rfl, le_refl _, le_refl _, rfl⟩⟩

theorem AccountInv_step (s : State) (a : Access) (n : Nat) (h : AccountInv s n) :
    AccountInv (main_step s a) (n + 1) := by
  obtain ⟨hm, hex⟩ := h
  unfold AccountInv
  rw [main_step_accesses, main_step_misses, main_step_write_backs, main_step_clock_cycles]
  unfold add64
  have hp : (2 : Nat) ^ 64 = 18446744073709551616 := by norm_num
  rw [hp] at hm hex ⊢
  have small : 101 * (n + 1) < 18446744073709551616 →
      s.accesses = n ∧ s.misses ≤ n ∧ s.write_backs ≤ s.misses
        ∧ s.clock_cycles = s.accesses + 50 * s.misses + 50 * s.write_backs
        ∧ (s.accesses + 1) % 18446744073709551616 = s.accesses + 1
        ∧ (s.misses + 1) % 18446744073709551616 = s.misses + 1
        ∧ (s.write_backs + 1) % 18446744073709551616 = s.write_backs + 1
        ∧ (s.clock_cycles + 1) % 18446744073709551616 = s.clock_cycles + 1
        ∧ (s.clock_cycles + 1 + 50) % 18446744073709551616 = s.clock_cycles + 1 + 50
        ∧ (s.clock_cycles + 1 + 50 + 50) % 18446744073709551616
            = s.clock_cycles + 1 + 50 + 50 := by
    intro hn
    obtain ⟨e1, e2, e3, e4⟩ := hex (by omega)
    refine ⟨e1, e2, e3, e4, ?_, ?_, ?_, ?_, ?_, ?_⟩ <;>
      exact Nat.mod_eq_of_lt (by omega)
  by_cases hh : (lookup s a).hit_flag = true
  · rw [if_pos hh, if_pos hh, if_pos hh]
    refine ⟨by omega, ?_⟩
    intro hn
    obtain ⟨e1, e2, e3, e4, a1, m1, w1, c1, c2, c3⟩ := small hn
    rw [a1, c1]
    omega
  · rw [if_neg hh, if_neg hh, if_neg hh]
    by_cases hd : (s.l1cache.line (temp_index a.mem_addr) (lookup s a).line_num).dirty = true
    · rw [if_pos hd, if_pos hd]
      refine ⟨by omega, ?_⟩
      intro hn
      obtain ⟨e1, e2, e3, e4, a1, m1, w1, c1, c2, c3⟩ := small hn
      rw [a1, m1, w1, c1, c2, c3]
      omega
    · rw [if_neg hd, if_neg hd]
      refine ⟨by omega, ?_⟩
      intro hn
      obtain ⟨e1, e2, e3, e4, a1, m1, w1, c1, c2, c3⟩ := small hn
      rw [a1, m1, c1, c2]
      omega

theorem AccountInv_reachable (tr : List Access) : AccountInv (run init tr) tr.length := by
  induction tr using List.reverseRecOn with
  | nil => exact AccountInv_init
  | append_singleton tr a ih =>
    rw [run_snoc, List.length_append]
    exact AccountInv_step _ a _ ih

/-- C19. Cycle accounting identity: after any finite sequence of accesses from the initial
state, `clock_cycles = accesses + 50 * misses + 50 * write_backs` holds in `uint_64`
arithmetic; and as long as no counter can have overflowed (`101 * length < 2^64`) it holds
as an equality of natural numbers, and `write_backs ≤ misses`. -/
theorem cycle_accounting (tr : List Access) :
    (run init tr).clock_cycles
        = ((run init tr).accesses + 50 * (run init tr).misses
            + 50 * (run init tr).write_backs) % 2 ^ 64
    ∧ (101 * tr.length < 2 ^ 64 →
        (run init tr).clock_cycles
            = (run init tr).accesses + 50 * (run init tr).misses
                + 50 * (run init tr).write_backs
          ∧ (run init tr).write_backs ≤ (run init tr).misses) := by
  obtain ⟨hm, hex⟩ := AccountInv_reachable tr
  refine ⟨hm, ?_⟩
  intro hn
  obtain ⟨-, -, h1, h2⟩ := hex hn
  exact ⟨h2, h1⟩

/-- C19 on `sample_trace` followed by the read that evicts the dirty line 0 of set 0. -/
theorem cycle_accounting_witness :
    (run init (sample_trace ++ [⟨'r', 0x38000⟩])).clock_cycles
        = (run init (sample_trace ++ [⟨'r', 0x38000⟩])).accesses
            + 50 * (run init (sample_trace ++ [⟨'r', 0x38000⟩])).misses
            + 50 * (run init (sample_trace ++ [⟨'r', 0x38000⟩])).write_backs
      ∧ (run init (sample_trace ++ [⟨'r', 0x38000⟩])).write_backs
        ≤ (run init (sample_trace ++ [⟨'r', 0x38000⟩])).misses :=
  (cycle_accounting (sample_trace ++ [⟨'r', 0x38000⟩])).2 (by decide)

/-! ## Write-backs against write hits (C20) -/

/-- Changing the `dirty` bit of one line changes the count by that line's contribution. -/
theorem dirtyCount_update (c d : Cache) (I N : Nat) (hI : I < NO_OF_SETS)
    (hN : N < NO_OF_LINES)
    (hsame : ∀ i j, ¬ (i = I ∧ j = N) → (d.line i j).dirty = (c.line i j).dirty) :
    dirtyCount d + (if (c.line I N).dirty = true then 1 else 0)
      = dirtyCount c + (if (d.line I N).dirty = true then 1 else 0) := by
  unfold dirtyCount
  have hIm : I ∈ Finset.range NO_OF_SETS := Finset.mem_range.mpr hI
  have hNm : N ∈ Finset.range NO_OF_LINES := Finset.mem_range.mpr hN
  rw [← Finset.add_sum_erase _ _ hIm, ← Finset.add_sum_erase _ _ hIm,
    ← Finset.add_sum_erase _ (fun j => if (d.line I j).dirty = true then 1 else 0) hNm,
    ← Finset.add_sum_erase _ (fun j => if (c.line I j).dirty = true then 1 else 0) hNm]
  have h1 : ∑ j ∈ (Finset.range NO_OF_LINES).erase N,
        (if (d.line I j).dirty = true then 1 else 0)
      = ∑ j ∈ (Finset.range NO_OF_LINES).erase N,
        (if (c.line I j).dirty = true then 1 else 0) := by
    apply Finset.sum_congr rfl
    intro j hj
    rw [hsame I j (fun h => (Finset.mem_erase.mp hj).1 h.2)]
  have h2 : ∑ i ∈ (Finset.range NO_OF_SETS).erase I, ∑ j ∈ Finset.range NO_OF_LINES,
        (if (d.line i j).dirty = true then 1 else 0)
      = ∑ i ∈ (Finset.range NO_OF_SETS).erase I, ∑ j ∈ Finset.range NO_OF_LINES,
        (if (c.line i j).dirty = true then 1 else 0) := by
    apply Finset.sum_congr rfl
    intro i hi
    apply Finset.sum_congr rfl
    intro j _
    rw [hsame i j (fun h => (Finset.mem_erase.mp hi).1 h.1)]
  rw [h1, h2]
  omega

theorem lookup_line_lt (s : State) (a : Access) : (lookup s a).line_num < NO_OF_LINES := by
  rcases lookup_cases s a with hc | hc | hc
  · exact hc.2.2.2.1
  · exact hc.2.2.2.1
  · exact hc.2.2.2.1

/-- While fewer than `2^64` accesses have been made, `write_backs` plus the number of dirty
lines is at most `write_hits`. -/
theorem wb_dirty_le_step (s : State) (a : Access) (n : Nat)
    (hn : n + 1 < 2 ^ 64)
    (h : s.write_hits ≤ n ∧ s.write_backs + dirtyCount s.l1cache ≤ s.write_hits) :
    (main_step s a).write_hits ≤ n + 1
      ∧ (main_step s a).write_backs + dirtyCount (main_step s a).l1cache
          ≤ (main_step s a).write_hits := by
  obtain ⟨h1, h2⟩ := h
  have hcount := dirtyCount_update s.l1cache (main_step s a).l1cache (temp_index a.mem_addr)
    (lookup s a).line_num (temp_index_lt _) (lookup_line_lt s a)
    (fun i j hij => by rw [main_step_dirty, if_neg hij])
  have hnew : ((main_step s a).l1cache.line (temp_index a.mem_addr)
        (lookup s a).line_num).dirty
      = if (lookup s a).hit_flag = true then
          (if a.arg0 = 'w' ∨ a.arg0 = 'W' then true
           else (s.l1cache.line (temp_index a.mem_addr) (lookup s a).line_num).dirty)
        else false := by
    rw [main_step_dirty, if_pos ⟨rfl, rfl⟩]
  rw [main_step_write_hits, main_step_write_backs]
  unfold add64
  have hp : (2 : Nat) ^ 64 = 18446744073709551616 := by norm_num
  rw [hp] at hn ⊢
  have w1 : (s.write_hits + 1) % 18446744073709551616 = s.write_hits + 1 :=
    Nat.mod_eq_of_lt (by omega)
  by_cases hh : (lookup s a).hit_flag = true
  · rw [if_pos hh] at hnew
    rw [if_pos hh]
    by_cases hw : a.arg0 = 'w' ∨ a.arg0 = 'W'
    · rw [if_pos hw] at hnew
      simp only [hnew, if_true] at hcount
      rw [if_pos ⟨hh, write_not_read _ hw, hw⟩, w1]
      split_ifs at hcount <;> omega
    · rw [if_neg hw] at hnew
      rw [hnew] at hcount
      rw [if_neg (fun h => hw h.2.2)]
      omega
  · rw [if_neg hh] at hnew
    simp only [hnew, Bool.false_eq_true, if_false] at hcount
    rw [if_neg hh, if_neg (fun h => hh h.1)]
    by_cases hd : (s.l1cache.line (temp_index a.mem_addr) (lookup s a).line_num).dirty = true
    · rw [if_pos hd] at hcount ⊢
      have b1 : (s.write_backs + 1) % 18446744073709551616 = s.write_backs + 1 :=
        Nat.mod_eq_of_lt (by omega)
      rw [b1]
      omega
    · rw [if_neg hd] at hcount ⊢
      omega

theorem wb_dirty_le_reachable (tr : List Access) (hn : tr.length < 2 ^ 64) :
    (run init tr).write_hits ≤ tr.length
      ∧ (run init tr).write_backs + dirtyCount (run init tr).l1cache
          ≤ (run init tr).write_hits := by
  induction tr using List.reverseRecOn with
  | nil =>
    refine ⟨Nat.zero_le _, ?_⟩
    have h0 : dirtyCount init.l1cache = 0 := by
      unfold dirtyCount
      apply Finset.sum_eq_zero
      intro i _
      apply Finset.sum_eq_zero
      intro j _
      rfl
    have e1 : init.write_backs = 0 := rfl
    have e2 : init.write_hits = 0 := rfl
    rw [run_nil, h0, e1, e2]
  | append_singleton tr a ih =>
    rw [List.length_append] at hn ⊢
    rw [run_snoc]
    exact wb_dirty_le_step _ a _ hn (ih (by simp at hn; omega))

theorem dirtyCount_pos (c : Cache) (i j : Nat) (hi : i < NO_OF_SETS) (hj : j < NO_OF_LINES)
    (hd : (c.line i j).dirty = true) : 1 ≤ dirtyCount c := by
  unfold dirtyCount
  have h1 : (if (c.line i j).dirty = true then 1 else 0)
      ≤ ∑ j ∈ Finset.range NO_OF_LINES, if (c.line i j).dirty = true then 1 else 0 :=
    Finset.single_le_sum (f := fun j => if (c.line i j).dirty = true then 1 else 0)
      (fun _ _ => Nat.zero_le _) (Finset.mem_range.mpr hj)
  have h2 : (∑ j ∈ Finset.range NO_OF_LINES, if (c.line i j).dirty = true then 1 else 0)
      ≤ ∑ i ∈ Finset.range NO_OF_SETS, ∑ j ∈ Finset.range NO_OF_LINES,
          if (c.line i j).dirty = true then 1 else 0 :=
    Finset.single_le_sum
      (f := fun i => ∑ j ∈ Finset.range NO_OF_LINES, if (c.line i j).dirty = true then 1 else 0)
      (fun _ _ => Nat.zero_le _) (Finset.mem_range.mpr hi)
  rw [if_pos hd] at h1
  omega

/-- Writing again and again to address 0 once its block is resident and dirty in line 0 of
set 0: every access is a write hit on that line. -/
theorem repeated_write_hits (m : Nat) :
    ∀ s : State, s.write_hits < 2 ^ 64 →
      (s.l1cache.line 0 0).valid = true → (s.l1cache.line 0 0).tag = 0 →
      (s.l1cache.line 0 0).dirty = true →
      ((run s (List.replicate m ⟨'w', 0x0⟩)).l1cache.line 0 0).dirty = true
        ∧ (run s (List.replicate m ⟨'w', 0x0⟩)).write_hits = (s.write_hits + m) % 2 ^ 64 := by
  induction m with
  | zero =>
    intro s hlt _ _ hd
    exact ⟨hd, (Nat.mod_eq_of_lt hlt).symm⟩
  | succ m ih =>
    intro s hlt hv ht hd
    rw [List.replicate_succ, run_cons]
    obtain ⟨hc, hn⟩ := lookup_hit_at s ⟨'w', 0x0⟩ 0 (by omega)
      (fun j _ hj => absurd hj (by omega)) hv ht
    have hwh : (main_step s ⟨'w', 0x0⟩).write_hits = (s.write_hits + 1) % 2 ^ 64 := by
      rw [main_step_write_hits, if_pos ⟨hc.1, by decide, by decide⟩]
      rfl
    have hv' : ((main_step s ⟨'w', 0x0⟩).l1cache.line 0 0).valid = true := by
      exact (hit_valid s ⟨'w', 0x0⟩ hc 0).trans hv
    have ht' : ((main_step s ⟨'w', 0x0⟩).l1cache.line 0 0).tag = 0 := by
      exact (hit_tag s ⟨'w', 0x0⟩ hc 0).trans ht
    have hd' : ((main_step s ⟨'w', 0x0⟩).l1cache.line 0 0).dirty = true := by
      have := hit_dirty s ⟨'w', 0x0⟩ hc 0
      rw [if_pos ⟨hn.symm, by decide⟩] at this
      exact this
    obtain ⟨r1, r2⟩ := ih (main_step s ⟨'w', 0x0⟩)
      (by rw [hwh]; exact Nat.mod_lt _ (by norm_num)) hv' ht' hd'
    refine ⟨r1, ?_⟩
    rw [r2, hwh]
    have hp : (2 : Nat) ^ 64 = 18446744073709551616 := by norm_num
    rw [hp]
    omega

/-- C20 as the claim states it fails after `2^64 + 1` writes to address 0: the first is a
miss, the other `2^64` are write hits on line 0 of set 0, so the `uint_64` counter
`write_hits` has wrapped to 0 while that line is dirty. -/
theorem write_hits_wrap_counterexample :
    ¬ ((run init (List.replicate (2 ^ 64 + 1) ⟨'w', 0x0⟩)).write_backs
        + dirtyCount (run init (List.replicate (2 ^ 64 + 1) ⟨'w', 0x0⟩)).l1cache
        ≤ (run init (List.replicate (2 ^ 64 + 1) ⟨'w', 0x0⟩)).write_hits) := by
  have hsplit : (2 : Nat) ^ 64 = (2 ^ 64 - 1) + 1 := by norm_num
  have hrun : run init (List.replicate (2 ^ 64 + 1) ⟨'w', 0x0⟩)
      = run (main_step (main_step init ⟨'w', 0x0⟩) ⟨'w', 0x0⟩)
          (List.replicate (2 ^ 64 - 1) ⟨'w', 0x0⟩) := by
    rw [List.replicate_succ, run_cons]
    nth_rewrite 1 [hsplit]
    rw [List.replicate_succ, run_cons]
  obtain ⟨hd, hw⟩ := repeated_write_hits (2 ^ 64 - 1)
    (main_step (main_step init ⟨'w', 0x0⟩) ⟨'w', 0x0⟩) (by decide) (by decide) (by decide)
    (by decide)
  have h1 : (main_step (main_step init ⟨'w', 0x0⟩) ⟨'w', 0x0⟩).write_hits = 1 := by decide
  rw [hrun, hw, h1]
  have hpos := dirtyCount_pos _ 0 0 (by decide) (by decide) hd
  have hz : (1 + (2 ^ 64 - 1)) % 2 ^ 64 = 0 := by norm_num
  rw [hz]
  omega

/-- C20 as amended. After any sequence of fewer than `2^64` accesses from the initial state,
`write_backs` plus the number of lines currently dirty in the whole cache is at most
`write_hits`. -/
theorem write_back_bound (tr : List Access) (hn : tr.length < 2 ^ 64) :
    (run init tr).write_backs + dirtyCount (run init tr).l1cache
      ≤ (run init tr).write_hits :=
  (wb_dirty_le_reachable tr hn).2

/-- C20 as amended, on `sample_trace` (one write hit, one dirty line, no write-back). -/
theorem write_back_bound_witness :
    (run init sample_trace).write_backs + dirtyCount (run init sample_trace).l1cache
      ≤ (run init sample_trace).write_hits :=
  write_back_bound sample_trace (by decide)

/-! ## LRU capacity guarantee (C18) -/

theorem four_in_three (a b c d t1 t2 t3 : Nat)
    (ha : a = t1 ∨ a = t2 ∨ a = t3) (hb : b = t1 ∨ b = t2 ∨ b = t3)
    (hc : c = t1 ∨ c = t2 ∨ c = t3) (hd : d = t1 ∨ d = t2 ∨ d = t3)
    (hab : a ≠ b) (hac : a ≠ c) (had : a ≠ d) (hbc : b ≠ c) (hbd : b ≠ d) (hcd : c ≠ d) :
    False := by
  omega

theorem Protected_step (s : State) (a : Access) (i t t1 t2 t3 : Nat)
    (hinv : SetInv s.l1cache i) (hnd : NoDupTags s.l1cache i)
    (hp : Protected s.l1cache i t t1 t2 t3)
    (ha : temp_index a.mem_addr = i →
      temp_tag a.mem_addr = t ∨ temp_tag a.mem_addr = t1 ∨ temp_tag a.mem_addr = t2
        ∨ temp_tag a.mem_addr = t3) :
    Protected (main_step s a).l1cache i t t1 t2 t3 := by
  obtain ⟨h, hh4, hhv, hht, hprot⟩ := hp
  by_cases hi : i = temp_index a.mem_addr
  · subst hi
    have hu := ha rfl
    obtain ⟨k, hk, hv, hb, hinj⟩ := hinv
    have hhk : h < k := (hv h hh4).mp hhv
    have hhb := hb h hhk
    rcases lookup_cases s a with hc | hc | hc
    · -- hit
      have hl := hit_lru s a hc
      have hvl := hit_valid s a hc
      have htl := hit_tag s a hc
      obtain ⟨-, -, -, hg4, hgv, hgt, -⟩ := hc
      have hgk := (hv _ hg4).mp hgv
      have hgb := hb _ hgk
      have i3 := hinj h _ hhk hgk
      refine ⟨h, hh4, by rw [hvl]; exact hhv, by rw [htl]; exact hht, ?_⟩
      intro j hj hvj hlt
      rw [hvl] at hvj
      rw [htl]
      have hjk := (hv j hj).mp hvj
      have hjb := hb j hjk
      have i1 := hinj j h hjk hhk
      have i2 := hinj j _ hjk hgk
      rw [hl j, hl h] at hlt
      by_cases hjg : j = (lookup s a).line_num
      · by_cases hgh : (lookup s a).line_num = h
        · rw [if_pos hjg, if_pos hgh.symm] at hlt
          omega
        · have hne : temp_tag a.mem_addr ≠ t := by
            intro he
            apply hgh
            exact hnd _ h hg4 hh4 hgv hhv (by rw [hgt, hht, he])
          rw [hjg, hgt]
          rcases hu with hu | hu
          · exact absurd hu hne
          · exact hu
      · have hold : (s.l1cache.line (temp_index a.mem_addr) j).lru
            < (s.l1cache.line (temp_index a.mem_addr) h).lru := by
          rw [if_neg hjg] at hlt
          split_ifs at hlt <;> omega
        exact hprot j hj hvj hold
    · -- miss into an empty line
      have hl := fill_lru s a hc
      have hvl := fill_valid s a hc
      have htl := fill_tag s a hc
      obtain ⟨-, -, -, hn4, hnv, hmm⟩ := hc
      have hnk : ¬ (lookup s a).line_num < k := by
        intro h1
        have := (hv _ hn4).mpr h1
        rw [hnv] at this
        exact Bool.false_ne_true this
      have hkn : ¬ k < (lookup s a).line_num := by
        intro h1
        have h2 := (hmm k (Nat.zero_le _) h1).1
        have h3 := (hv k (by omega)).mp h2
        omega
      have hhn : h ≠ (lookup s a).line_num := by omega
      have hne : temp_tag a.mem_addr ≠ t := by
        intro he
        exact (hmm h (Nat.zero_le _) (by omega)).2 (by rw [hht, he])
      refine ⟨h, hh4, by rw [hvl, if_neg hhn]; exact hhv, by rw [htl, if_neg hhn]; exact hht, ?_⟩
      intro j hj hvj hlt
      rw [htl]
      by_cases hjn : j = (lookup s a).line_num
      · rw [if_pos hjn, temp_tag_mod]
        rcases hu with hu | hu
        · exact absurd hu hne
        · exact hu
      · rw [hvl, if_neg hjn] at hvj
        rw [if_neg hjn]
        have hjk := (hv j hj).mp hvj
        have hjb := hb j hjk
        rw [hl j, hl h, if_neg hjn, if_neg hhn, if_pos (by omega), if_pos (by omega)] at hlt
        exact hprot j hj hvj (by omega)
    · -- miss in a full set
      have hl := evict_lru s a hc
      have hvl := evict_valid s a hc
      have htl := evict_tag s a hc
      obtain ⟨h3, hb4, huniq, hinj4⟩ := evict_rank3 _ _ _ _ ⟨k, hk, hv, hb, hinj⟩ hc
      obtain ⟨-, -, -, hn4, hmm, -⟩ := hc
      have hne : temp_tag a.mem_addr ≠ t := by
        intro he
        exact (hmm h (Nat.zero_le _) hh4).2 (by rw [hht, he])
      have huT : temp_tag a.mem_addr = t1 ∨ temp_tag a.mem_addr = t2
          ∨ temp_tag a.mem_addr = t3 := by
        rcases hu with hu | hu
        · exact absurd hu hne
        · exact hu
      have hall : ∀ j, j < 4 → (s.l1cache.line (temp_index a.mem_addr) j).valid = true :=
        fun j hj => (hmm j (Nat.zero_le _) hj).1
      have hmis : ∀ j, j < 4 →
          temp_tag a.mem_addr ≠ (s.l1cache.line (temp_index a.mem_addr) j).tag :=
        fun j hj he => (hmm j (Nat.zero_le _) hj).2 he.symm
      -- the protected line is not the one of rank 3
      have hlt3 : (s.l1cache.line (temp_index a.mem_addr) h).lru < 3 := by
        by_contra hge
        have hh3 : (s.l1cache.line (temp_index a.mem_addr) h).lru = 3 := by omega
        have hT : ∀ j, j < 4 → j ≠ h →
            (s.l1cache.line (temp_index a.mem_addr) j).tag = t1
              ∨ (s.l1cache.line (temp_index a.mem_addr) j).tag = t2
              ∨ (s.l1cache.line (temp_index a.mem_addr) j).tag = t3 := by
          intro j hj hjh
          have hjb := hb4 j hj
          have := hinj4 j h hj hh4
          exact hprot j hj (hall j hj) (by omega)
        have hD : ∀ x y, x < 4 → y < 4 → x ≠ y →
            (s.l1cache.line (temp_index a.mem_addr) x).tag
              ≠ (s.l1cache.line (temp_index a.mem_addr) y).tag :=
          fun x y hx hy hxy he => hxy (hnd x y hx hy (hall x hx) (hall y hy) he)
        have hcases : h = 0 ∨ h = 1 ∨ h = 2 ∨ h = 3 := by omega
        rcases hcases with rfl | rfl | rfl | rfl
        · exact four_in_three _ _ _ _ t1 t2 t3 (hT 1 (by omega) (by omega))
            (hT 2 (by omega) (by omega)) (hT 3 (by omega) (by omega)) huT
            (hD 1 2 (by omega) (by omega) (by omega)) (hD 1 3 (by omega) (by omega) (by omega))
            (hmis 1 (by omega)).symm (hD 2 3 (by omega) (by omega) (by omega))
            (hmis 2 (by omega)).symm (hmis 3 (by omega)).symm
        · exact four_in_three _ _ _ _ t1 t2 t3 (hT 0 (by omega) (by omega))
            (hT 2 (by omega) (by omega)) (hT 3 (by omega) (by omega)) huT
            (hD 0 2 (by omega) (by omega) (by omega)) (hD 0 3 (by omega) (by omega) (by omega))
            (hmis 0 (by omega)).symm (hD 2 3 (by omega) (by omega) (by omega))
            (hmis 2 (by omega)).symm (hmis 3 (by omega)).symm
        · exact four_in_three _ _ _ _ t1 t2 t3 (hT 0 (by omega) (by omega))
            (hT 1 (by omega) (by omega)) (hT 3 (by omega) (by omega)) huT
            (hD 0 1 (by omega) (by omega) (by omega)) (hD 0 3 (by omega) (by omega) (by omega))
            (hmis 0 (by omega)).symm (hD 1 3 (by omega) (by omega) (by omega))
            (hmis 1 (by omega)).symm (hmis 3 (by omega)).symm
        · exact four_in_three _ _ _ _ t1 t2 t3 (hT 0 (by omega) (by omega))
            (hT 1 (by omega) (by omega)) (hT 2 (by omega) (by omega)) huT
            (hD 0 1 (by omega) (by omega) (by omega)) (hD 0 2 (by omega) (by omega) (by omega))
            (hmis 0 (by omega)).symm (hD 1 2 (by omega) (by omega) (by omega))
            (hmis 1 (by omega)).symm (hmis 2 (by omega)).symm
      have hhn : h ≠ (lookup s a).line_num := by
        intro he
        rw [← he] at h3
        omega
      refine ⟨h, hh4, by rw [hvl]; exact hhv, by rw [htl, if_neg hhn]; exact hht, ?_⟩
      intro j hj _ hlt
      rw [htl]
      by_cases hjn : j = (lookup s a).line_num
      · rw [if_pos hjn, temp_tag_mod]
        exact huT
      · rw [if_neg hjn]
        have hjb := hb4 j hj
        have hj3 := huniq j hj
        rw [hl j, hl h, if_pos hj, if_pos hh4] at hlt
        exact hprot j hj (hall j hj) (by omega)
  · refine ⟨h, hh4, ?_, ?_, ?_⟩
    · rw [step_line_other s a i h hi]; exact hhv
    · rw [step_line_other s a i h hi]; exact hht
    · intro j hj
      rw [step_line_other s a i j hi, step_line_other s a i h hi]
      exact hprot j hj

/-- In a reachable state the line selected by an access has `lru` 0 after the access. -/
theorem selected_lru_zero (tr : List Access) (a : Access) :
    ((main_step (run init tr) a).l1cache.line (temp_index a.mem_addr)
        (lookup (run init tr) a).line_num).lru = 0 := by
  rcases lookup_cases (run init tr) a with hc | hc | hc
  · rw [hit_lru _ a hc, if_pos rfl]
  · rw [fill_lru _ a hc, if_pos rfl]
  · obtain ⟨h3, -, -, -⟩ :=
      evict_rank3 _ _ _ _ (SetInv_reachable tr (temp_index a.mem_addr)) hc
    rw [evict_lru _ a hc, if_pos hc.2.2.2.1, h3]

theorem cover_of_length_le_three (l : List Nat) (h : l.length ≤ 3) :
    ∃ t1 t2 t3, ∀ x ∈ l, x = t1 ∨ x = t2 ∨ x = t3 := by
  match l, h with
  | [], _ => exact ⟨0, 0, 0, fun x hx => absurd hx (List.not_mem_nil x)⟩
  | [p], _ =>
    refine ⟨p, p, p, fun x hx => ?_⟩
    simp only [List.mem_singleton] at hx
    exact Or.inl hx
  | [p, q], _ =>
    refine ⟨p, q, q, fun x hx => ?_⟩
    simp only [List.mem_cons, List.mem_singleton, List.not_mem_nil, or_false] at hx
    rcases hx with hx | hx
    · exact Or.inl hx
    · exact Or.inr (Or.inl hx)
  | [p, q, r], _ =>
    refine ⟨p, q, r, fun x hx => ?_⟩
    simp only [List.mem_cons, List.mem_singleton, List.not_mem_nil, or_false] at hx
    exact hx
  | _ :: _ :: _ :: _ :: _, h => simp at h

theorem Protected_run (tr : List Access) (a : Access) (t1 t2 t3 : Nat) (mid : List Access) :
    (∀ x ∈ mid, temp_index x.mem_addr = temp_index a.mem_addr →
        temp_tag x.mem_addr = temp_tag a.mem_addr ∨ temp_tag x.mem_addr = t1
          ∨ temp_tag x.mem_addr = t2 ∨ temp_tag x.mem_addr = t3) →
      Protected (run init (tr ++ a :: mid)).l1cache (temp_index a.mem_addr)
        (temp_tag a.mem_addr) t1 t2 t3 := by
  induction mid using List.reverseRecOn with
  | nil =>
    intro _
    rw [run_snoc]
    obtain ⟨hn4, -, hv, ht⟩ := selected_resident (run init tr) a
    refine ⟨_, hn4, hv, ht, ?_⟩
    intro j _ _ hlt
    rw [selected_lru_zero] at hlt
    omega
  | append_singleton mid x ih =>
    intro hmid
    have e : tr ++ a :: (mid ++ [x]) = (tr ++ a :: mid) ++ [x] := by simp
    rw [e, run_snoc]
    exact Protected_step _ x _ _ t1 t2 t3 (SetInv_reachable _ _) (NoDupTags_reachable _ _)
      (ih (fun y hy => hmid y (List.mem_append_left _ hy)))
      (hmid x (by simp))

/-- C18. LRU capacity guarantee: from any reachable state, if a block (tag `t`, index `i`)
is accessed by `a` and the accesses `mid` that follow touch at most 3 distinct tags other
than `t` among the accesses with index `i` (accesses to other indices being unrestricted),
then an access `b` to (`t`, `i`) right after them is a hit. -/
theorem lru_capacity (tr : List Access) (a : Access) (mid : List Access) (b : Access)
    (hcount : (other_tags mid (temp_index a.mem_addr) (temp_tag a.mem_addr)).length ≤ 3)
    (hbt : temp_tag b.mem_addr = temp_tag a.mem_addr)
    (hbi : temp_index b.mem_addr = temp_index a.mem_addr) :
    (lookup (run init (tr ++ a :: mid)) b).hit_flag = true := by
  obtain ⟨t1, t2, t3, hcov⟩ := cover_of_length_le_three _ hcount
  have hmid : ∀ x ∈ mid, temp_index x.mem_addr = temp_index a.mem_addr →
      temp_tag x.mem_addr = temp_tag a.mem_addr ∨ temp_tag x.mem_addr = t1
        ∨ temp_tag x.mem_addr = t2 ∨ temp_tag x.mem_addr = t3 := by
    intro x hx hxi
    by_cases hxt : temp_tag x.mem_addr = temp_tag a.mem_addr
    · exact Or.inl hxt
    · right
      apply hcov
      unfold other_tags
      rw [List.mem_dedup, List.mem_map]
      refine ⟨x, ?_, rfl⟩
      rw [List.mem_filter]
      exact ⟨hx, by simpa using ⟨hxi, hxt⟩⟩
  obtain ⟨h, hh4, hhv, hht, -⟩ := Protected_run tr a t1 t2 t3 mid hmid
  obtain ⟨k, hk, hv, -, -⟩ := SetInv_reachable (tr ++ a :: mid) (temp_index a.mem_addr)
  have hnd := NoDupTags_reachable (tr ++ a :: mid) (temp_index a.mem_addr)
  rw [← hbi] at hhv hht hv hnd
  rw [← hbt] at hht
  have hmm : AllMismatch (run init (tr ++ a :: mid)).l1cache (temp_tag b.mem_addr)
      (temp_index b.mem_addr) 0 h := by
    intro j _ hj
    have hvj := (hv j (by omega)).mpr (by have := (hv h hh4).mp hhv; omega)
    refine ⟨hvj, ?_⟩
    intro he
    have := hnd j h (by omega) hh4 hvj hhv (by rw [he, hht])
    omega
  exact (lookup_hit_at _ b h hh4 hmm hhv hht).1.1

/-- C18 on set 0: tag 0 is read, then tags 1, 2, 3, 1 follow on set 0 together with two
accesses to set 1; the next read of tag 0 hits. -/
theorem lru_capacity_witness :
    (lookup (run init ([⟨'r', 0x20000⟩] ++ ⟨'r', 0x0⟩ ::
        [⟨'r', 0x8000⟩, ⟨'w', 0x10020⟩, ⟨'w', 0x10000⟩, ⟨'r', 0x18000⟩, ⟨'r', 0x28020⟩,
          ⟨'r', 0x8004⟩])) ⟨'r', 0x10⟩).hit_flag = true :=
  lru_capacity [⟨'r', 0x20000⟩] ⟨'r', 0x0⟩
    [⟨'r', 0x8000⟩, ⟨'w', 0x10020⟩, ⟨'w', 0x10000⟩, ⟨'r', 0x18000⟩, ⟨'r', 0x28020⟩,
      ⟨'r', 0x8004⟩] ⟨'r', 0x10⟩ (by decide) (by decide) (by decide)

end CacheSim
